import Mathlib

/-!
Verification development for the simple-redis server: a shallow embedding of
the RESP frame codec (src/resp/bulk_string.rs, src/resp/array.rs), the
command-dispatch layer (src/cmd/mod.rs, src/cmd/echo.rs, src/cmd/hmap.rs,
src/cmd/set.rs) and the in-memory store (src/backend/mod.rs), together with
proofs of the specified properties.

Buffers are modelled as lists of byte values (`Nat`); the mutable `BytesMut`
buffer only ever shrinks from the front (`advance` / `split_to`), so every
decoder is embedded as a pure function returning its `Result` together with
the number of bytes consumed from the front of the buffer.  The recursive
array decoder is embedded with an explicit structural fuel parameter that is
instantiated with `buffer length + 1`, which is always sufficient because
every nested decode call operates on a strictly shorter buffer.
-/

namespace SimpleRedis

abbrev Buf := List Nat


/-- Bytes of an ASCII string (every string used in the protocol is ASCII, so
the character codes coincide with the UTF-8 bytes). -/
def strBytes (s : String) : Buf := s.data.map Char.toNat

def CRLF : Buf := [13, 10]

def CRLF_LEN : Nat := 2

/-- Modelled from the spec: the protocol-error taxonomy of the missing
`src/resp/mod.rs` (`RespError`): `IncompleteFrame` (retry signal) and the
malformed-frame errors (bad length digits, literal mismatch, wrong marker).
Error message payloads are elided. -/
inductive RespError where
  | notComplete
  | invalidFrame
  | invalidFrameType
  | parseIntError
deriving DecidableEq, Repr

/-! ## ASCII decimal lengths -/

def isDigit (b : Nat) : Bool := 48 ≤ b && b ≤ 57

/-- Parse a non-empty all-digit byte slice as a decimal number
(`str::parse::<usize>` restricted to plain digit strings). -/
def parseDigits (l : Buf) : Option Nat :=
  if l.isEmpty then none
  else if l.all isDigit then some (l.foldl (fun acc b => acc * 10 + (b - 48)) 0)
  else none

/-- Big-endian decimal digits with a structural fuel bound (the fuel only
needs to exceed the number of digits). -/
def lenDigitsAux : Nat → Nat → Buf
  | 0, _ => []
  | fuel + 1, n => if n = 0 then [] else lenDigitsAux fuel (n / 10) ++ [n % 10 + 48]

/-- ASCII decimal rendering of a number (`format!("{}", n)`). -/
def lenDigits (n : Nat) : Buf :=
  if n = 0 then [48] else lenDigitsAux (n + 1) n

/-! ## Terminator scanning -/

/-- Index of the first `\r\n` in the buffer, if any. -/
def findCRLF : Buf → Option Nat
  | [] => none
  | [_] => none
  | a :: b :: rest =>
    if a = 13 ∧ b = 10 then some 0
    else (findCRLF (b :: rest)).map (· + 1)

/-- Modelled from the spec: `extract_simple_frame_data` of the missing
`src/resp/mod.rs` — check the marker byte, scan forward for the first
terminator; a too-short buffer or absent terminator is incomplete, a wrong
marker is a frame-type error.  Returns the index of the `\r`. -/
def extract_simple_frame_data (buf : Buf) (marker : Nat) : Except RespError Nat :=
  if buf.length < 3 then .error .notComplete
  else
    match buf.head? with
    | none => .error .notComplete
    | some b =>
      if b = marker then
        match findCRLF buf with
        | some e => .ok e
        | none => .error .notComplete
      else .error .invalidFrameType

/-- Modelled from the spec: `parse_length` of the missing `src/resp/mod.rs` —
find the first terminator and parse the ASCII integer between the marker and
it; bad digits are a parse error.  Returns `(end, length)`. -/
def parse_length (buf : Buf) (marker : Nat) : Except RespError (Nat × Nat) :=
  match extract_simple_frame_data buf marker with
  | .error e => .error e
  | .ok e =>
    match parseDigits ((buf.drop 1).take (e - 1)) with
    | some n => .ok (e, n)
    | none => .error .parseIntError

/-- Modelled from the spec: fixed-literal extraction (`extract_fixed_data`) —
compare the buffer's prefix byte-for-byte against the expected literal; a
too-short prefix is incomplete, a mismatch is malformed.  On success the
caller consumes `expect.length` bytes. -/
def extract_fixed_data (buf expect : Buf) : Except RespError Unit :=
  if buf.length < expect.length then .error .notComplete
  else if expect.isPrefixOf buf then .ok ()
  else .error .invalidFrame

/-! ## The frame model -/

/-- Modelled from the spec: the `RespFrame` tagged union of the missing
`src/resp/mod.rs`, with the variants evidenced by the spec's data model:
SimpleString (payload kept as raw bytes), Integer, nullable BulkString,
nullable recursive Array, and the explicit Null.  `BulkString` and
`RespArray` carry the `Option` payloads of `src/resp/bulk_string.rs` and
`src/resp/array.rs`. -/
inductive RespFrame where
  | simpleString (s : Buf)
  | integer (i : Int)
  | bulkString (data : Option Buf)
  | array (elems : Option (List RespFrame))
  | null
deriving Repr

def nullBulkStringBytes : Buf := strBytes "$-1\r\n"

def nullArrayBytes : Buf := strBytes "*-1\r\n"

/-! ## Encoding -/

/-- `BulkString::encode` (src/resp/bulk_string.rs): `$<len>\r\n<data>\r\n`,
or the `$-1\r\n` sentinel when absent. -/
def BulkString.encode (data : Option Buf) : Buf :=
  match data with
  | some d => 36 :: lenDigits d.length ++ CRLF ++ d ++ CRLF
  | none => nullBulkStringBytes

mutual

/-- Modelled from the spec: `RespFrame` encode dispatch of the missing
`src/resp/mod.rs`; each variant delegates to its kind's encoder, following
the wire-format table (`+`, `:`, `$`, `*`, `_` markers, CRLF terminator). -/
def RespFrame.encode : RespFrame → Buf
  | .simpleString s => 43 :: s ++ CRLF
  | .integer i => 58 :: strBytes (toString i) ++ CRLF
  | .bulkString d => BulkString.encode d
  | .array es => RespArray.encode es
  | .null => [95, 13, 10]

/-- `RespArray::encode` (src/resp/array.rs): `*<count>\r\n` followed by each
element's encoding, or the `*-1\r\n` sentinel when absent. -/
def RespArray.encode : Option (List RespFrame) → Buf
  | some fs => 42 :: lenDigits fs.length ++ CRLF ++ encodeList fs
  | none => nullArrayBytes

/-- Concatenation of the encodings of a list of frames (the `for` loop in
`RespArray::encode`). -/
def encodeList : List RespFrame → Buf
  | [] => []
  | f :: fs => RespFrame.encode f ++ encodeList fs

end

/-! ## Probing (`expect_length`) -/

/-- `BulkString::expect_length` (src/resp/bulk_string.rs): parse the length
header and return `end + CRLF_LEN + len + CRLF_LEN`.  Note that it calls
`parse_length` directly, without the null-sentinel check that `decode`
performs. -/
def BulkString.expect_length (buf : Buf) : Except RespError Nat :=
  match parse_length buf 36 with
  | .error e => .error e
  | .ok (e, len) => .ok (e + CRLF_LEN + len + CRLF_LEN)

/-- Probe `n` successive elements starting at `data`, summing their expected
lengths (the loop of `calc_total_length` in the missing `src/resp/mod.rs`,
parametrised by the element probe). -/
def probeElemsF (fexp : Buf → Except RespError Nat) : Nat → Buf → Except RespError Nat
  | 0, _ => .ok 0
  | n + 1, data =>
    match fexp data with
    | .error e => .error e
    | .ok k =>
      match probeElemsF fexp n (data.drop k) with
      | .error e => .error e
      | .ok s => .ok (k + s)

/-- `RespArray::expect_length` (src/resp/array.rs), parametrised by the
element probe: the null-array sentinel is 5 bytes; otherwise parse the count
header and run the recursive probe (`calc_total_length`) over the elements. -/
def RespArray.expect_lengthF (fexp : Buf → Except RespError Nat) (buf : Buf) :
    Except RespError Nat :=
  if nullArrayBytes.isPrefixOf buf then .ok 5
  else
    match parse_length buf 42 with
    | .error e => .error e
    | .ok (e, n) =>
      match probeElemsF fexp n (buf.drop (e + CRLF_LEN)) with
      | .error er => .error er
      | .ok s => .ok (e + CRLF_LEN + s)

/-- Modelled from the spec: the `RespFrame::expect_length` marker dispatch of
the missing `src/resp/mod.rs`, with fuel bounding the array-nesting depth
(every nested probe runs on a strictly shorter buffer, so fuel
`buf.length + 1` is always sufficient). -/
def RespFrame.expectD : Nat → Buf → Except RespError Nat
  | 0, _ => .error .notComplete
  | d + 1, buf =>
    match buf.head? with
    | none => .error .notComplete
    | some b =>
      if b = 43 ∨ b = 58 then
        match extract_simple_frame_data buf b with
        | .error e => .error e
        | .ok e => .ok (e + CRLF_LEN)
      else if b = 36 then BulkString.expect_length buf
      else if b = 42 then RespArray.expect_lengthF (RespFrame.expectD d) buf
      else if b = 95 then .ok 3
      else .error .invalidFrameType

/-- `RespFrame::expect_length` with the always-sufficient fuel. -/
def RespFrame.expect_length (buf : Buf) : Except RespError Nat :=
  RespFrame.expectD (buf.length + 1) buf

/-- `RespArray::expect_length` (src/resp/array.rs). -/
def RespArray.expect_length (buf : Buf) : Except RespError Nat :=
  RespArray.expect_lengthF RespFrame.expect_length buf

/-! ## Decoding

Each decoder returns its `Result` paired with the number of bytes consumed
from the front of the buffer (the buffer after the call is `buf.drop k`). -/

/-- Modelled from the spec: `check_null_bulkstring` of the missing
`src/resp/mod.rs` — does the buffer start with the `$-1\r\n` sentinel?  When
it does, `BulkString::decode` consumes those 5 bytes. -/
def check_null_bulkstring (buf : Buf) : Bool := nullBulkStringBytes.isPrefixOf buf

/-- `BulkString::decode` (src/resp/bulk_string.rs): handle the null sentinel,
parse the length header, signal incomplete if fewer than `len + CRLF_LEN`
bytes remain, otherwise consume the whole frame and return the payload. -/
def BulkString.decode (buf : Buf) : Except RespError (Option Buf) × Nat :=
  if check_null_bulkstring buf then (.ok none, 5)
  else
    match parse_length buf 36 with
    | .error e => (.error e, 0)
    | .ok (e, len) =>
      if (buf.drop (e + CRLF_LEN)).length < len + CRLF_LEN then (.error .notComplete, 0)
      else (.ok (some ((buf.drop (e + CRLF_LEN)).take len)), e + CRLF_LEN + len + CRLF_LEN)

/-- Modelled from the spec: simple-string decode of the missing
`src/resp/mod.rs` — scan to the terminator and take the payload bytes
(`from_utf8_lossy` never fails, so the payload is kept as raw bytes). -/
def SimpleString.decode (buf : Buf) : Except RespError Buf × Nat :=
  match extract_simple_frame_data buf 43 with
  | .error e => (.error e, 0)
  | .ok e => (.ok ((buf.drop 1).take (e - 1)), e + CRLF_LEN)

/-- Sign-aware decimal parse of an `i64` (`str::parse::<i64>`), with the
64-bit range check. -/
def parseI64 (l : Buf) : Option Int :=
  match l with
  | 45 :: rest =>
    match parseDigits rest with
    | some n => if n ≤ 2 ^ 63 then some (-(n : Int)) else none
    | none => none
  | 43 :: rest =>
    match parseDigits rest with
    | some n => if n ≤ 2 ^ 63 - 1 then some (n : Int) else none
    | none => none
  | _ =>
    match parseDigits l with
    | some n => if n ≤ 2 ^ 63 - 1 then some (n : Int) else none
    | none => none

/-- Modelled from the spec: integer decode of the missing `src/resp/mod.rs` —
the terminated slice is split off the buffer first and parsed afterwards, so
a digit failure is a parse error reported after consumption. -/
def RespInt.decode (buf : Buf) : Except RespError Int × Nat :=
  match extract_simple_frame_data buf 58 with
  | .error e => (.error e, 0)
  | .ok e =>
    match parseI64 ((buf.drop 1).take (e - 1)) with
    | some i => (.ok i, e + CRLF_LEN)
    | none => (.error .parseIntError, e + CRLF_LEN)

/-- Modelled from the spec: null-frame decode — the fixed `_\r\n` literal. -/
def RespNull.decode (buf : Buf) : Except RespError Unit × Nat :=
  match extract_fixed_data buf [95, 13, 10] with
  | .error e => (.error e, 0)
  | .ok _ => (.ok (), 3)

/-- Decode `n` successive elements (the `for` loop of `RespArray::decode`),
parametrised by the element decoder; returns the frames and the total bytes
consumed, or the first error together with the bytes consumed up to it. -/
def decodeElemsF (fdec : Buf → Except RespError RespFrame × Nat) :
    Nat → Buf → Except RespError (List RespFrame) × Nat
  | 0, _ => (.ok [], 0)
  | n + 1, data =>
    match fdec data with
    | (.error e, k) => (.error e, k)
    | (.ok f, k) =>
      match decodeElemsF fdec n (data.drop k) with
      | (.error e, k') => (.error e, k + k')
      | (.ok fs, k') => (.ok (f :: fs), k + k')

/-- `RespArray::decode` (src/resp/array.rs), parametrised by the element
decoder and probe: handle the null sentinel; parse the count header; run the
non-consuming recursive probe (`calc_total_length`); if fewer bytes than the
probed total are available, signal incomplete without consuming; otherwise
consume the header and decode each element in sequence. -/
def RespArray.decodeF (fdec : Buf → Except RespError RespFrame × Nat)
    (fexp : Buf → Except RespError Nat) (buf : Buf) :
    Except RespError (Option (List RespFrame)) × Nat :=
  if nullArrayBytes.isPrefixOf buf then
    match extract_fixed_data buf nullArrayBytes with
    | .error e => (.error e, 0)
    | .ok _ => (.ok none, 5)
  else
    match parse_length buf 42 with
    | .error e => (.error e, 0)
    | .ok (e, len) =>
      match probeElemsF fexp len (buf.drop (e + CRLF_LEN)) with
      | .error er => (.error er, 0)
      | .ok s =>
        if buf.length < e + CRLF_LEN + s then (.error .notComplete, 0)
        else
          match decodeElemsF fdec len (buf.drop (e + CRLF_LEN)) with
          | (.error er, k) => (.error er, e + CRLF_LEN + k)
          | (.ok frames, k) => (.ok (some frames), e + CRLF_LEN + k)

/-- Modelled from the spec: the `RespFrame::decode` marker dispatch of the
missing `src/resp/mod.rs`, with fuel bounding the array-nesting depth. -/
def RespFrame.decodeD : Nat → Buf → Except RespError RespFrame × Nat
  | 0, _ => (.error .notComplete, 0)
  | d + 1, buf =>
    match buf.head? with
    | none => (.error .notComplete, 0)
    | some b =>
      if b = 43 then
        match SimpleString.decode buf with
        | (.error e, k) => (.error e, k)
        | (.ok s, k) => (.ok (.simpleString s), k)
      else if b = 58 then
        match RespInt.decode buf with
        | (.error e, k) => (.error e, k)
        | (.ok i, k) => (.ok (.integer i), k)
      else if b = 36 then
        match BulkString.decode buf with
        | (.error e, k) => (.error e, k)
        | (.ok d, k) => (.ok (.bulkString d), k)
      else if b = 42 then
        match RespArray.decodeF (RespFrame.decodeD d) (RespFrame.expectD d) buf with
        | (.error e, k) => (.error e, k)
        | (.ok es, k) => (.ok (.array es), k)
      else if b = 95 then
        match RespNull.decode buf with
        | (.error e, k) => (.error e, k)
        | (.ok _, k) => (.ok .null, k)
      else (.error .invalidFrameType, 0)

/-- `RespFrame::decode` with the always-sufficient fuel. -/
def RespFrame.decode (buf : Buf) : Except RespError RespFrame × Nat :=
  RespFrame.decodeD (buf.length + 1) buf

/-- `RespArray::decode` (src/resp/array.rs): elements are decoded with
`RespFrame::decode` and probed with `RespFrame::expect_length`. -/
def RespArray.decode (buf : Buf) : Except RespError (Option (List RespFrame)) × Nat :=
  RespArray.decodeF RespFrame.decode RespFrame.expect_length buf

/-! ## The store (src/backend/mod.rs)

The three `DashMap` namespaces are modelled as association lists (insertion
replaces the existing binding for a key); a `DashSet` is a duplicate-free
member list.  The `Arc` wrapper is kept as the `Backend`/`BackendInner`
pair; sharing and per-key locking are outside the sequential model. -/

/-- Replace the binding of `k`, or append it when absent (`DashMap::insert` /
`entry().or_default()` followed by an insert). -/
def assocInsert {α : Type} (k : String) (v : α) : List (String × α) → List (String × α)
  | [] => [(k, v)]
  | (k', v') :: rest => if k' == k then (k, v) :: rest else (k', v') :: assocInsert k v rest

/-- `DashSet::insert`: returns whether the member was newly added. -/
def dashSetInsert (s : List String) (m : String) : List String × Bool :=
  if s.contains m then (s, false) else (s ++ [m], true)

structure BackendInner where
  map : List (String × RespFrame)
  hmap : List (String × List (String × RespFrame))
  set : List (String × List String)

structure Backend where
  inner : BackendInner

/-- `Backend::new` / `Default`: three empty maps. -/
def Backend.new : Backend := ⟨⟨[], [], []⟩⟩

/-- `Backend::sadd`: get-or-create the key's set, insert each member in
order, and count the members that were not already present. -/
def Backend.sadd (b : Backend) (key : String) (members : List String) : Backend × Int :=
  let s0 := (b.inner.set.lookup key).getD []
  let step := fun (acc : List String × Int) (m : String) =>
    let (s, c) := acc
    let (s', isNew) := dashSetInsert s m
    (s', if isNew then c + 1 else c)
  let res := members.foldl step (s0, 0)
  (⟨{ b.inner with set := assocInsert key res.1 b.inner.set }⟩, res.2)

/-- `Backend::sismember`: 1 when the key's set exists and contains the
member, 0 otherwise. -/
def Backend.sismember (b : Backend) (key member : String) : Int :=
  if ((b.inner.set.lookup key).map (fun s => s.contains member)).getD false then 1 else 0

/-- `Backend::get`. -/
def Backend.get (b : Backend) (key : String) : Option RespFrame :=
  b.inner.map.lookup key

/-- `Backend::set`. -/
def Backend.setv (b : Backend) (key : String) (v : RespFrame) : Backend :=
  ⟨{ b.inner with map := assocInsert key v b.inner.map }⟩

/-- `Backend::hget`: two-level lookup. -/
def Backend.hget (b : Backend) (key field : String) : Option RespFrame :=
  (b.inner.hmap.lookup key).bind (fun h => h.lookup field)

/-- `Backend::hmget`: for each requested field, the stored frame or `None`
(the inner map is looked up afresh per field, as in the source loop). -/
def Backend.hmget (b : Backend) (key : String) (fields : List String) :
    List (Option RespFrame) :=
  fields.map (fun field =>
    match b.inner.hmap.lookup key with
    | some h =>
      match h.lookup field with
      | some v => some v
      | none => none
    | none => none)

/-- `Backend::hset` as written in src/backend/mod.rs: get-or-create the
key's hash, insert the field — and return unit.  The `Unit` component is the
Rust function's return value: no created-field count is produced. -/
def Backend.hset (b : Backend) (key field : String) (v : RespFrame) : Backend × Unit :=
  let h0 := (b.inner.hmap.lookup key).getD []
  (⟨{ b.inner with hmap := assocInsert key (assocInsert field v h0) b.inner.hmap }⟩, ())

/-- `Backend::hgetall`: the key's hash, if present. -/
def Backend.hgetall (b : Backend) (key : String) : Option (List (String × RespFrame)) :=
  b.inner.hmap.lookup key

/-! ## The command layer (src/cmd) -/

/-- `CommandError` (src/cmd/mod.rs); message payloads are elided. -/
inductive CommandError where
  | invalidCommand
  | invalidArgument
  | respError
  | utf8Error
deriving DecidableEq, Repr

/-- Outcome of a fallible conversion that may also panic: `TryFrom` results
are `ok`/`err`, and a `panicked` value records an `expect`/indexing panic
with its message. -/
inductive PResult (α : Type) where
  | ok (a : α)
  | err (e : CommandError)
  | panicked (msg : String)
deriving Repr

def PResult.bind {α β : Type} : PResult α → (α → PResult β) → PResult β
  | .ok a, f => f a
  | .err e, _ => .err e
  | .panicked m, _ => .panicked m

def PResult.map {α β : Type} (f : α → β) : PResult α → PResult β
  | .ok a => .ok (f a)
  | .err e => .err e
  | .panicked m => .panicked m

/-- Lift an `Except CommandError` computation into `PResult`. -/
def PResult.ofExcept {α : Type} : Except CommandError α → PResult α
  | .ok a => .ok a
  | .error e => .err e

/-- Modelled UTF-8 validation (`String::from_utf8`), restricted to the ASCII
range actually exercised by the protocol: byte values below 128 map to the
identical characters, anything else is rejected. -/
def bufToString (b : Buf) : Option String :=
  if b.all (fun c => c < 128) then some (String.mk (b.map Char.ofNat)) else none

/-- `to_ascii_lowercase` on bytes. -/
def toLowerAscii (b : Buf) : Buf :=
  b.map (fun c => if 65 ≤ c ∧ c ≤ 90 then c + 32 else c)

/-- `BulkString::as_ref`: the payload bytes, or empty when absent. -/
def bulkAsRef (d : Option Buf) : Buf := d.getD []

structure Get where
  key : String
deriving Repr

structure Set where
  key : String
  value : RespFrame
deriving Repr

structure HGet where
  key : String
  field : String
deriving Repr

structure HSet where
  key : String
  field : String
  value : RespFrame
deriving Repr

structure HMGet where
  key : String
  fields : List String
deriving Repr

structure HGetAll where
  key : String
  sort : Bool
deriving Repr

structure Echo where
  message : String
deriving Repr

structure Sadd where
  key : String
  members : List String
deriving Repr

structure Sismember where
  key : String
  member : String
deriving Repr

/-- `Command` (src/cmd/mod.rs): the closed set of typed operations. -/
inductive Command where
  | get (c : Get)
  | set (c : Set)
  | hget (c : HGet)
  | hset (c : HSet)
  | hmget (c : HMGet)
  | hgetall (c : HGetAll)
  | echo (c : Echo)
  | sadd (c : Sadd)
  | sismember (c : Sismember)
  | unrecognized
deriving Repr

/-- The name-token loop of `validate_command`: each name position must be a
BulkString whose `to_ascii_lowercase` equals the expected literal; `value[i]`
panics when the index is out of bounds. -/
def checkNames (v : List RespFrame) (names : List Buf) (i : Nat) : PResult Unit :=
  match names with
  | [] => .ok ()
  | name :: rest =>
    match v.get? i with
    | none => .panicked "index out of bounds"
    | some (.bulkString cmd) =>
      if toLowerAscii (bulkAsRef cmd) = name then checkNames v rest (i + 1)
      else .err .invalidCommand
    | some _ => .err .invalidCommand

/-- `validate_command` (src/cmd/mod.rs): reject a null array; when an exact
argument count is given, require `length = n_args + names.length`; then
check every name token case-insensitively. -/
def validate_command (value : Option (List RespFrame)) (names : List Buf)
    (nArgs : Option Nat) : PResult Unit :=
  match value with
  | none => .err .invalidCommand
  | some v =>
    match nArgs with
    | some n =>
      if v.length ≠ n + names.length then .err .invalidArgument
      else checkNames v names 0
    | none => checkNames v names 0

/-- `extract_args` (src/cmd/mod.rs): the elements after the name tokens. -/
def extract_args (value : Option (List RespFrame)) (start : Nat) :
    Except CommandError (List RespFrame) :=
  match value with
  | some frames => .ok (frames.drop start)
  | none => .error .invalidCommand

/-- `key.0.expect(msg)?`-style extraction of a BulkString payload into a
key string: panics with `msg` when the payload is absent, errors on invalid
UTF-8. -/
def expectString (d : Option Buf) (msg : String) : PResult String :=
  match d with
  | some bytes =>
    match bufToString bytes with
    | some s => .ok s
    | none => .err .utf8Error
  | none => .panicked msg

/-- `TryFrom<RespArray> for Echo` (src/cmd/echo.rs). -/
def Echo.tryFrom (value : Option (List RespFrame)) : PResult Echo :=
  (validate_command value [strBytes "echo"] (some 1)).bind fun _ =>
  (PResult.ofExcept (extract_args value 1)).bind fun args =>
  match args.head? with
  | some (.bulkString key) =>
    (expectString key "Invalid message").bind fun s => .ok ⟨s⟩
  | _ => .err .invalidArgument

/-- `TryFrom<RespArray> for HGet` (src/cmd/hmap.rs). -/
def HGet.tryFrom (value : Option (List RespFrame)) : PResult HGet :=
  (validate_command value [strBytes "hget"] (some 2)).bind fun _ =>
  (PResult.ofExcept (extract_args value 1)).bind fun args =>
  match args.get? 0, args.get? 1 with
  | some (.bulkString key), some (.bulkString field) =>
    (expectString key "Invalid key").bind fun k =>
    (expectString field "Invalid field").bind fun f => .ok ⟨k, f⟩
  | _, _ => .err .invalidArgument

/-- `TryFrom<RespArray> for HSet` (src/cmd/hmap.rs): key and field must be
BulkStrings, the value may be any frame. -/
def HSet.tryFrom (value : Option (List RespFrame)) : PResult HSet :=
  (validate_command value [strBytes "hset"] (some 3)).bind fun _ =>
  (PResult.ofExcept (extract_args value 1)).bind fun args =>
  match args.get? 0, args.get? 1, args.get? 2 with
  | some (.bulkString key), some (.bulkString field), some v =>
    (expectString key "Invalid key").bind fun k =>
    (expectString field "Invalid field").bind fun f => .ok ⟨k, f, v⟩
  | _, _, _ => .err .invalidArgument

/-- The member-collection loop shared by `HMGet`/`Sadd`: every remaining
element must be a BulkString, whose payload is extracted like a key. -/
def collectStrings (args : List RespFrame) (msg : String) : PResult (List String) :=
  match args with
  | [] => .ok []
  | .bulkString d :: rest =>
    (expectString d msg).bind fun s =>
    (collectStrings rest msg).bind fun ss => .ok (s :: ss)
  | _ :: _ => .err .invalidArgument

/-- `TryFrom<RespArray> for HMGet` (src/cmd/hmap.rs): no fixed argument
count; a key followed by the field list. -/
def HMGet.tryFrom (value : Option (List RespFrame)) : PResult HMGet :=
  (validate_command value [strBytes "hmget"] none).bind fun _ =>
  (PResult.ofExcept (extract_args value 1)).bind fun args =>
  match args.head? with
  | some (.bulkString key) =>
    (expectString key "Invalid key").bind fun k =>
    (collectStrings (args.drop 1) "Invalid field").bind fun fs => .ok ⟨k, fs⟩
  | _ => .err .invalidArgument

/-- `TryFrom<RespArray> for HGetAll` (src/cmd/hmap.rs): the sort flag is
always false when parsed from the wire. -/
def HGetAll.tryFrom (value : Option (List RespFrame)) : PResult HGetAll :=
  (validate_command value [strBytes "hgetall"] (some 1)).bind fun _ =>
  (PResult.ofExcept (extract_args value 1)).bind fun args =>
  match args.head? with
  | some (.bulkString key) =>
    (expectString key "Invalid key").bind fun k => .ok ⟨k, false⟩
  | _ => .err .invalidArgument

/-- `TryFrom<RespArray> for Sadd` (src/cmd/set.rs). -/
def Sadd.tryFrom (value : Option (List RespFrame)) : PResult Sadd :=
  (validate_command value [strBytes "sadd"] none).bind fun _ =>
  (PResult.ofExcept (extract_args value 1)).bind fun args =>
  match args.head? with
  | some (.bulkString key) =>
    (expectString key "Invalid key").bind fun k =>
    (collectStrings (args.drop 1) "Invalid member").bind fun ms => .ok ⟨k, ms⟩
  | _ => .err .invalidArgument

/-- `TryFrom<RespArray> for Sismember` (src/cmd/set.rs). -/
def Sismember.tryFrom (value : Option (List RespFrame)) : PResult Sismember :=
  (validate_command value [strBytes "sismember"] (some 2)).bind fun _ =>
  (PResult.ofExcept (extract_args value 1)).bind fun args =>
  match args.get? 0, args.get? 1 with
  | some (.bulkString key), some (.bulkString member) =>
    (expectString key "Invalid key").bind fun k =>
    (expectString member "Invalid member").bind fun m => .ok ⟨k, m⟩
  | _, _ => .err .invalidArgument

/-- Modelled from the spec: `TryFrom<RespArray> for Get` of the missing
`src/cmd/map.rs` (`get key`), following the validation contract and the
sibling parsers' shape. -/
def Get.tryFrom (value : Option (List RespFrame)) : PResult Get :=
  (validate_command value [strBytes "get"] (some 1)).bind fun _ =>
  (PResult.ofExcept (extract_args value 1)).bind fun args =>
  match args.head? with
  | some (.bulkString key) =>
    (expectString key "Invalid key").bind fun k => .ok ⟨k⟩
  | _ => .err .invalidArgument

/-- Modelled from the spec: `TryFrom<RespArray> for Set` of the missing
`src/cmd/map.rs` (`set key value`), following the validation contract and
the sibling parsers' shape. -/
def Set.tryFrom (value : Option (List RespFrame)) : PResult Set :=
  (validate_command value [strBytes "set"] (some 2)).bind fun _ =>
  (PResult.ofExcept (extract_args value 1)).bind fun args =>
  match args.get? 0, args.get? 1 with
  | some (.bulkString key), some v =>
    (expectString key "Invalid key").bind fun k => .ok ⟨k, v⟩
  | _, _ => .err .invalidArgument

/-- `TryFrom<RespArray> for Command` (src/cmd/mod.rs): the first element
must be a BulkString; its raw bytes (`as_ref`) are matched against the
lowercase command literals, anything else parses to `Unrecognized`. -/
def Command.tryFrom (v : Option (List RespFrame)) : PResult Command :=
  match v with
  | some frames =>
    match frames.head? with
    | some (.bulkString cmd) =>
      let c := bulkAsRef cmd
      if c = strBytes "get" then (Get.tryFrom v).map .get
      else if c = strBytes "set" then (Set.tryFrom v).map .set
      else if c = strBytes "hget" then (HGet.tryFrom v).map .hget
      else if c = strBytes "hset" then (HSet.tryFrom v).map .hset
      else if c = strBytes "hmget" then (HMGet.tryFrom v).map .hmget
      else if c = strBytes "hgetall" then (HGetAll.tryFrom v).map .hgetall
      else if c = strBytes "echo" then (Echo.tryFrom v).map .echo
      else if c = strBytes "sadd" then (Sadd.tryFrom v).map .sadd
      else if c = strBytes "sismember" then (Sismember.tryFrom v).map .sismember
      else .ok .unrecognized
    | _ => .err .invalidCommand
  | none => .err .invalidCommand

/-! ## Execution (`CommandExecutor`)

Each executor is embedded as `Backend → RespFrame × Backend`, returning the
reply frame and the store after the call. -/

/-- `RESP_OK` (src/cmd/mod.rs): `SimpleString::new("OK")`. -/
def RESP_OK : RespFrame := .simpleString (strBytes "OK")

/-- Ordering of hash pairs by field name, used to model
`data.sort_by(|a, b| a.0.cmp(&b.0))`. -/
def keyLe (a b : String × RespFrame) : Prop := a.1 ≤ b.1

instance : DecidableRel keyLe := fun a b => inferInstanceAs (Decidable (a.1 ≤ b.1))

instance : IsTotal (String × RespFrame) keyLe := ⟨fun a b => le_total a.1 b.1⟩

instance : IsTrans (String × RespFrame) keyLe := ⟨fun _ _ _ h h' => le_trans h h'⟩

/-- Flatten hash pairs into the alternating field-name/value list
(the `flat_map` of `HGetAll::execute`). -/
def flattenPairs : List (String × RespFrame) → List RespFrame
  | [] => []
  | (k, v) :: rest => .bulkString (some (strBytes k)) :: v :: flattenPairs rest

/-- `CommandExecutor for Get` (modelled from the spec, src/cmd/map.rs is
missing): the stored frame or an explicit Null. -/
def Get.execute (c : Get) (b : Backend) : RespFrame × Backend :=
  (match b.get c.key with
   | some v => v
   | none => .null, b)

/-- `CommandExecutor for Set` (modelled from the spec, src/cmd/map.rs is
missing): overwrite the scalar unconditionally and acknowledge. -/
def Set.execute (c : Set) (b : Backend) : RespFrame × Backend :=
  (RESP_OK, b.setv c.key c.value)

/-- `CommandExecutor for HGet` (src/cmd/hmap.rs). -/
def HGet.execute (c : HGet) (b : Backend) : RespFrame × Backend :=
  (match b.hget c.key c.field with
   | some v => v
   | none => .null, b)

/-- `CommandExecutor for HMGet` (src/cmd/hmap.rs): each absent entry becomes
a null BulkString placeholder. -/
def HMGet.execute (c : HMGet) (b : Backend) : RespFrame × Backend :=
  (.array (some ((b.hmget c.key c.fields).map (fun o =>
    match o with
    | some v => v
    | none => .bulkString none))), b)

/-- `CommandExecutor for HGetAll` (src/cmd/hmap.rs): a null Array when the
key is absent; otherwise the collected pairs — sorted by field name when the
flag is set (`sort_by` modelled as insertion sort: a sorted permutation) —
flattened into the alternating field/value list. -/
def HGetAll.execute (c : HGetAll) (b : Backend) : RespFrame × Backend :=
  match b.inner.hmap.lookup c.key with
  | some m =>
    let data := if c.sort then List.insertionSort keyLe m else m
    (.array (some (flattenPairs data)), b)
  | none => (.array none, b)

/-- `CommandExecutor for HSet` (src/cmd/hmap.rs) wraps `backend.hset(...)`
in `RespFrame::Integer`; since `Backend::hset` returns unit, no integer
value exists to wrap — the executor's store effect is embedded and the
unit return value is exposed for the statement of that divergence. -/
def HSet.execute (c : HSet) (b : Backend) : Backend × Unit :=
  b.hset c.key c.field c.value

/-- `CommandExecutor for Echo` (src/cmd/echo.rs): the message as a
BulkString, no store interaction. -/
def Echo.execute (c : Echo) (b : Backend) : RespFrame × Backend :=
  (.bulkString (some (strBytes c.message)), b)

/-- `CommandExecutor for Sadd` (src/cmd/set.rs). -/
def Sadd.execute (c : Sadd) (b : Backend) : RespFrame × Backend :=
  let r := b.sadd c.key c.members
  (.integer r.2, r.1)

/-- `CommandExecutor for Sismember` (src/cmd/set.rs). -/
def Sismember.execute (c : Sismember) (b : Backend) : RespFrame × Backend :=
  (.integer (b.sismember c.key c.member), b)

/-- `CommandExecutor for Unrecognized` (src/cmd/mod.rs): the fixed `OK`
acknowledgement, ignoring the store. -/
def Unrecognized.execute (b : Backend) : RespFrame × Backend :=
  (RESP_OK, b)

/-- The command-name literals recognized by the `TryFrom<RespArray> for
Command` dispatch. -/
def knownCmdNames : List Buf :=
  [strBytes "get", strBytes "set", strBytes "hget", strBytes "hset",
   strBytes "hmget", strBytes "hgetall", strBytes "echo", strBytes "sadd",
   strBytes "sismember"]

mutual

/-- Frames (built from the BulkString and Array constructors) that are safe
as array elements for the round-trip: a null BulkString element is excluded
because `BulkString::expect_length` does not recognize the `$-1` sentinel. -/
def arrayElemSafe : RespFrame → Bool
  | .bulkString (some _) => true
  | .bulkString none => false
  | .array none => true
  | .array (some fs) => allElemSafe fs
  | _ => false

/-- Every frame of the list is element-safe. -/
def allElemSafe : List RespFrame → Bool
  | [] => true
  | f :: fs => arrayElemSafe f && allElemSafe fs

end

/-- Top-level frames of the BulkString/Array fragment whose encodings
round-trip: a null BulkString is fine at top level (where `decode` handles
the sentinel), and otherwise the frame must be element-safe throughout. -/
def topSafe (v : RespFrame) : Bool :=
  match v with
  | .bulkString _ => true
  | _ => arrayElemSafe v

/-! # Lemmas about the decimal length rendering -/

theorem lenDigitsAux_eq : ∀ (fuel n : Nat), n < fuel →
    lenDigitsAux fuel n = ((Nat.digits 10 n).map (fun d => d + 48)).reverse := by
  intro fuel
  induction fuel with
  | zero => intro n h; omega
  | succ fuel ih =>
    intro n h
    rw [lenDigitsAux]
    by_cases hn : n = 0
    · subst hn
      simp
    · rw [if_neg hn]
      rw [ih (n / 10) (by
        have := Nat.div_lt_self (Nat.pos_of_ne_zero hn) (by norm_num : (1 : Nat) < 10)
        omega)]
      rw [Nat.digits_def' (by norm_num : (1 : Nat) < 10) (Nat.pos_of_ne_zero hn)]
      simp

/-- `lenDigits` agrees with the little-endian `Nat.digits` rendering. -/
theorem lenDigits_eq (n : Nat) :
    lenDigits n = if n = 0 then [48] else ((Nat.digits 10 n).map (fun d => d + 48)).reverse := by
  unfold lenDigits
  split
  · rfl
  · exact lenDigitsAux_eq (n + 1) n (by omega)

theorem lenDigits_all_digit (n : Nat) : ∀ x ∈ lenDigits n, 48 ≤ x ∧ x ≤ 57 := by
  intro x hx
  rw [lenDigits_eq] at hx
  split at hx
  · simp only [List.mem_singleton] at hx
    omega
  · simp only [List.mem_reverse, List.mem_map] at hx
    obtain ⟨d, hd, rfl⟩ := hx
    have := Nat.digits_lt_base (b := 10) (by norm_num) hd
    omega

theorem lenDigits_ne_nil (n : Nat) : lenDigits n ≠ [] := by
  rw [lenDigits_eq]
  split
  · simp
  · simpa using Nat.digits_ne_nil_iff_ne_zero.mpr (by assumption)

theorem foldl_base10 (l : List Nat) (a : Nat) :
    l.reverse.foldl (fun x d => x * 10 + d) a = a * 10 ^ l.length + Nat.ofDigits 10 l := by
  induction l generalizing a with
  | nil => simp
  | cons d tl ih =>
    simp only [List.reverse_cons, List.foldl_append, List.foldl_cons, List.foldl_nil, ih,
      Nat.ofDigits_cons, List.length_cons]
    ring

/-- The decimal rendering parses back to the same number. -/
theorem parseDigits_lenDigits (n : Nat) : parseDigits (lenDigits n) = some n := by
  unfold parseDigits
  rw [if_neg (by simpa using lenDigits_ne_nil n)]
  rw [if_pos]
  · congr 1
    rw [lenDigits_eq]
    split
    · simp [*]
    · rw [← List.map_reverse, List.foldl_map]
      have : ∀ (l : List Nat) (a : Nat),
          l.foldl (fun x d => x * 10 + (d + 48 - 48)) a = l.foldl (fun x d => x * 10 + d) a := by
        intro l
        induction l with
        | nil => intro a; rfl
        | cons d tl ih => intro a; simp only [List.foldl_cons, Nat.add_sub_cancel, ih]
      rw [this, foldl_base10, Nat.ofDigits_digits]
      simp
  · rw [List.all_eq_true]
    intro x hx
    have := lenDigits_all_digit n x hx
    simp only [isDigit, Bool.and_eq_true, decide_eq_true_eq]
    omega

theorem lenDigits_not_cr (n : Nat) : ∀ x ∈ lenDigits n, x ≠ 13 := by
  intro x hx
  have := lenDigits_all_digit n x hx
  omega

/-! # Lemmas about terminator scanning -/

theorem findCRLF_bound : ∀ {buf : Buf} {e : Nat}, findCRLF buf = some e → e + 2 ≤ buf.length := by
  intro buf
  induction buf with
  | nil => intro e h; simp [findCRLF] at h
  | cons a rest ih =>
    cases rest with
    | nil => intro e h; simp [findCRLF] at h
    | cons b tl =>
      intro e h
      by_cases hab : a = 13 ∧ b = 10
      · rw [findCRLF, if_pos hab] at h
        simp only [Option.some.injEq] at h
        subst h
        simp
      · rw [findCRLF, if_neg hab] at h
        simp only [Option.map_eq_some'] at h
        obtain ⟨e', he', rfl⟩ := h
        have := ih he'
        simp only [List.length_cons] at this ⊢
        omega

theorem findCRLF_zero {a b : Nat} {rest : Buf}
    (h : findCRLF (a :: b :: rest) = some 0) : a = 13 ∧ b = 10 := by
  by_cases hab : a = 13 ∧ b = 10
  · exact hab
  · rw [findCRLF, if_neg hab] at h
    simp only [Option.map_eq_some'] at h
    obtain ⟨e', _, he⟩ := h
    omega

/-- The scan is stable under truncation that keeps the terminator. -/
theorem findCRLF_take : ∀ {buf : Buf} {e k : Nat}, findCRLF buf = some e → e + 2 ≤ k →
    findCRLF (buf.take k) = some e := by
  intro buf
  induction buf with
  | nil => intro e k h _; simp [findCRLF] at h
  | cons a rest ih =>
    cases rest with
    | nil => intro e k h _; simp [findCRLF] at h
    | cons b tl =>
      intro e k h hk
      obtain ⟨k', rfl⟩ : ∃ k', k = k' + 2 := ⟨k - 2, by omega⟩
      have htake : (a :: b :: tl).take (k' + 2) = a :: b :: tl.take k' := rfl
      rw [htake]
      by_cases hab : a = 13 ∧ b = 10
      · rw [findCRLF, if_pos hab] at h
        simp only [Option.some.injEq] at h
        subst h
        rw [findCRLF, if_pos hab]
      · rw [findCRLF, if_neg hab] at h
        simp only [Option.map_eq_some'] at h
        obtain ⟨e', he', rfl⟩ := h
        rw [findCRLF, if_neg hab]
        have : (b :: tl).take (k' + 1) = b :: tl.take k' := rfl
        rw [← this, ih he' (by omega)]
        rfl

/-- Unfolding step for a head byte that is not `\r`. -/
theorem findCRLF_cons_ne {a : Nat} (ha : a ≠ 13) (rest : Buf) :
    findCRLF (a :: rest) = (findCRLF rest).map (· + 1) := by
  cases rest with
  | nil => simp [findCRLF]
  | cons b tl => rw [findCRLF, if_neg (fun h => ha h.1)]

/-- Scanning a buffer whose prefix is free of `\r` finds the terminator that
immediately follows the prefix. -/
theorem findCRLF_append {pre : Buf} (hpre : ∀ x ∈ pre, x ≠ 13) (rest : Buf) :
    findCRLF (pre ++ 13 :: 10 :: rest) = some pre.length := by
  induction pre with
  | nil => simp [findCRLF]
  | cons a pre' ih =>
    rw [List.cons_append, findCRLF_cons_ne (hpre a (by simp)),
      ih (fun x hx => hpre x (by simp [hx]))]
    rfl

/-! # Lemmas about the length header parser -/

theorem extract_simple_ok {buf : Buf} {m e : Nat}
    (h : extract_simple_frame_data buf m = .ok e) :
    3 ≤ buf.length ∧ buf.head? = some m ∧ findCRLF buf = some e := by
  unfold extract_simple_frame_data at h
  split at h
  · exact absurd h (by simp)
  · rename_i hlen
    split at h
    · exact absurd h (by simp)
    · rename_i b hb
      split at h
      · rename_i hbm
        split at h
        · rename_i e' he
          simp only [Except.ok.injEq] at h
          subst h
          exact ⟨by omega, hbm ▸ hb, he⟩
        · exact absurd h (by simp)
      · exact absurd h (by simp)

/-- Inversion of a successful `parse_length`. -/
theorem parse_length_ok {buf : Buf} {m e n : Nat} (h : parse_length buf m = .ok (e, n)) :
    3 ≤ buf.length ∧ buf.head? = some m ∧ findCRLF buf = some e ∧
      parseDigits ((buf.drop 1).take (e - 1)) = some n := by
  unfold parse_length at h
  split at h
  · exact absurd h (by simp)
  · rename_i e' he
    split at h
    · rename_i n' hn
      simp only [Except.ok.injEq, Prod.mk.injEq] at h
      obtain ⟨rfl, rfl⟩ := h
      obtain ⟨h1, h2, h3⟩ := extract_simple_ok he
      exact ⟨h1, h2, h3, hn⟩
    · exact absurd h (by simp)

/-- Introduction of a successful `parse_length` from its components. -/
theorem parse_length_eq {buf : Buf} {m e n : Nat}
    (hlen : 3 ≤ buf.length) (hhead : buf.head? = some m) (hfind : findCRLF buf = some e)
    (hdig : parseDigits ((buf.drop 1).take (e - 1)) = some n) :
    parse_length buf m = .ok (e, n) := by
  unfold parse_length extract_simple_frame_data
  rw [if_neg (show ¬buf.length < 3 by omega)]
  simp only [hhead, hfind, hdig, eq_self_iff_true, if_true]

theorem parse_length_bounds {buf : Buf} {m e n : Nat} (hm : m ≠ 13)
    (h : parse_length buf m = .ok (e, n)) : 1 ≤ e ∧ e + 2 ≤ buf.length := by
  obtain ⟨h3, hhead, hfind, _⟩ := parse_length_ok h
  have hb := findCRLF_bound hfind
  refine ⟨?_, hb⟩
  by_contra he
  have he0 : e = 0 := by omega
  subst he0
  rcases buf with _ | ⟨a, rest⟩
  · simp at hhead
  rcases rest with _ | ⟨b, tl⟩
  · simp at h3
  obtain ⟨h13, _⟩ := findCRLF_zero hfind
  simp only [List.head?_cons, Option.some.injEq] at hhead
  exact hm (by omega)

/-- `parse_length` is stable under truncation that keeps the header. -/
theorem parse_length_take {buf : Buf} {m e n k : Nat} (hm : m ≠ 13)
    (h : parse_length buf m = .ok (e, n)) (hk : e + 2 ≤ k) :
    parse_length (buf.take k) m = .ok (e, n) := by
  obtain ⟨h3, hhead, hfind, hdig⟩ := parse_length_ok h
  obtain ⟨he1, hb⟩ := parse_length_bounds hm h
  apply parse_length_eq
  · rw [List.length_take]
    omega
  · rcases buf with _ | ⟨a, rest⟩
    · simp at hhead
    · cases k with
      | zero => omega
      | succ k' => simpa using hhead
  · exact findCRLF_take hfind hk
  · rw [List.drop_take, List.take_take, min_eq_left (by omega)]
    exact hdig

/-- `parse_length` on a rendered length header followed by anything. -/
theorem parse_length_encode {m n : Nat} (hm13 : m ≠ 13) (rest : Buf) :
    parse_length (m :: lenDigits n ++ 13 :: 10 :: rest) m =
      .ok ((lenDigits n).length + 1, n) := by
  have hfind : findCRLF ((m :: lenDigits n) ++ 13 :: 10 :: rest) =
      some (m :: lenDigits n).length := by
    apply findCRLF_append
    intro x hx
    rcases List.mem_cons.mp hx with rfl | hx'
    · exact hm13
    · exact lenDigits_not_cr n x hx'
  apply parse_length_eq
  · simp only [List.cons_append, List.length_cons, List.length_append]
    omega
  · rfl
  · simpa using hfind
  · simp only [List.cons_append, List.drop_succ_cons, List.drop_zero, Nat.add_sub_cancel]
    rw [List.take_left]
    exact parseDigits_lenDigits n

/-! # Prefix-test helpers -/

theorem nullBulkStringBytes_eq : nullBulkStringBytes = [36, 45, 49, 13, 10] := by decide

theorem nullArrayBytes_eq : nullArrayBytes = [42, 45, 49, 13, 10] := by decide

theorem isPrefixOf_length {l buf : Buf} (h : l.isPrefixOf buf = true) :
    l.length ≤ buf.length :=
  (List.isPrefixOf_iff_prefix.mp h).length_le

theorem eq_append_of_isPrefixOf {l buf : Buf} (h : l.isPrefixOf buf = true) :
    ∃ t, buf = l ++ t := by
  obtain ⟨t, ht⟩ := List.isPrefixOf_iff_prefix.mp h
  exact ⟨t, ht.symm⟩

theorem isPrefixOf_take {l buf : Buf} {j : Nat} (h : l.isPrefixOf buf = true)
    (hj : l.length ≤ j) : l.isPrefixOf (buf.take j) = true := by
  rw [List.isPrefixOf_iff_prefix] at h ⊢
  obtain ⟨t, rfl⟩ := h
  obtain ⟨i, rfl⟩ : ∃ i, j = l.length + i := ⟨j - l.length, by omega⟩
  rw [List.take_append]
  exact List.prefix_append l _

theorem isPrefixOf_of_take {l buf : Buf} {j : Nat} (h : l.isPrefixOf (buf.take j) = true) :
    l.isPrefixOf buf = true := by
  rw [List.isPrefixOf_iff_prefix] at h ⊢
  exact h.trans (List.take_prefix j buf)

/-- The `$-1\r\n` sentinel defeats `parse_length`: the slice before the
terminator is `-1`, whose leading `-` is not a digit. -/
theorem check_null_parse {buf : Buf} (h : check_null_bulkstring buf = true) :
    parse_length buf 36 = .error .parseIntError := by
  obtain ⟨t, rfl⟩ := eq_append_of_isPrefixOf (l := nullBulkStringBytes) h
  rw [nullBulkStringBytes_eq]
  have hfind : findCRLF ([36, 45, 49] ++ 13 :: 10 :: t) = some 3 := by
    apply findCRLF_append
    intro x hx
    simp only [List.mem_cons, List.not_mem_nil, or_false] at hx
    rcases hx with rfl | rfl | rfl <;> omega
  unfold parse_length extract_simple_frame_data
  rw [if_neg (by simp)]
  simp only [List.cons_append, List.head?_cons] at hfind ⊢
  simp only [hfind, eq_self_iff_true, if_true]
  rfl

/-! # Lemmas about `BulkString` decode and probe -/

/-- Inversion of a successful `BulkString.expect_length`. -/
theorem BulkString.expect_length_ok {buf : Buf} {n : Nat}
    (h : BulkString.expect_length buf = .ok n) :
    ∃ e len, parse_length buf 36 = .ok (e, len) ∧ n = e + CRLF_LEN + len + CRLF_LEN := by
  unfold BulkString.expect_length at h
  split at h
  · exact absurd h (by simp)
  · rename_i e len hp
    simp only [Except.ok.injEq] at h
    exact ⟨e, len, hp, h.symm⟩

theorem BulkString.expect_not_null {buf : Buf} {n : Nat}
    (h : BulkString.expect_length buf = .ok n) : check_null_bulkstring buf = false := by
  by_contra hc
  have hc' : check_null_bulkstring buf = true := by simpa using hc
  obtain ⟨e, len, hp, _⟩ := BulkString.expect_length_ok h
  rw [check_null_parse hc'] at hp
  exact absurd hp (by simp)

/-- Introduction form for the non-null success path of `BulkString.decode`. -/
theorem BulkString.decode_eq_of {buf : Buf} {e len : Nat}
    (hnull : check_null_bulkstring buf = false) (hp : parse_length buf 36 = .ok (e, len))
    (hlen : len + CRLF_LEN ≤ (buf.drop (e + CRLF_LEN)).length) :
    BulkString.decode buf =
      (.ok (some ((buf.drop (e + CRLF_LEN)).take len)), e + CRLF_LEN + len + CRLF_LEN) := by
  unfold BulkString.decode
  simp only [hnull, Bool.false_eq_true, if_false, hp]
  rw [if_neg (by omega)]

/-- A successful probe with enough bytes available guarantees a successful
decode consuming exactly the probed length. -/
theorem BulkString.decode_of_expect_bulk {buf : Buf} {n : Nat}
    (he : BulkString.expect_length buf = .ok n) (hn : n ≤ buf.length) :
    ∃ v, BulkString.decode buf = (.ok v, n) := by
  obtain ⟨e, len, hp, rfl⟩ := BulkString.expect_length_ok he
  have hnull := BulkString.expect_not_null he
  refine ⟨_, BulkString.decode_eq_of hnull hp ?_⟩
  simp only [List.length_drop, CRLF_LEN] at hn ⊢
  omega

/-- Every error path of `BulkString.decode` leaves the buffer untouched. -/
theorem BulkString.decode_error {buf : Buf} {er : RespError} {k : Nat}
    (h : BulkString.decode buf = (.error er, k)) : k = 0 := by
  unfold BulkString.decode at h
  split at h
  · simp at h
  · split at h
    · simp only [Prod.mk.injEq] at h
      exact h.2.symm
    · split at h <;> simp_all

/-- A successful decode consumes at most the whole buffer, and redecoding
any truncation that keeps the consumed bytes gives the same result. -/
theorem BulkString.decode_take_bulk {buf : Buf} {v : Option Buf} {k : Nat}
    (h : BulkString.decode buf = (.ok v, k)) :
    k ≤ buf.length ∧ ∀ j, k ≤ j → BulkString.decode (buf.take j) = (.ok v, k) := by
  unfold BulkString.decode at h
  split at h
  · rename_i hnull
    simp only [Prod.mk.injEq, Except.ok.injEq] at h
    obtain ⟨rfl, rfl⟩ := h
    have h5 : nullBulkStringBytes.length ≤ buf.length := isPrefixOf_length hnull
    rw [nullBulkStringBytes_eq] at h5
    refine ⟨by simpa using h5, fun j hj => ?_⟩
    have hpre : check_null_bulkstring (buf.take j) = true := by
      unfold check_null_bulkstring at hnull ⊢
      apply isPrefixOf_take hnull
      rw [nullBulkStringBytes_eq]
      simpa using hj
    unfold BulkString.decode
    rw [if_pos hpre]
  · rename_i hnull
    have hnull0 : check_null_bulkstring buf = false := by simpa using hnull
    split at h
    · simp at h
    · rename_i e len hp
      split at h
      · simp at h
      · rename_i hlen
        simp only [Prod.mk.injEq, Except.ok.injEq] at h
        obtain ⟨rfl, rfl⟩ := h
        simp only [List.length_drop, not_lt, CRLF_LEN] at hlen
        have hb := (parse_length_bounds (show (36 : Nat) ≠ 13 by omega) hp).2
        refine ⟨by simp only [CRLF_LEN]; omega, fun j hj => ?_⟩
        simp only [CRLF_LEN] at hj
        rcases Nat.le_total buf.length j with hjl | hjl
        · rw [List.take_of_length_le hjl]
          exact BulkString.decode_eq_of hnull0 hp
            (by simp only [List.length_drop, CRLF_LEN]; omega)
        · have hnull' : check_null_bulkstring (buf.take j) = false := by
            by_contra hc
            have hc' : check_null_bulkstring (buf.take j) = true := by simpa using hc
            unfold check_null_bulkstring at hc'
            have : check_null_bulkstring buf = true := by
              unfold check_null_bulkstring
              exact isPrefixOf_of_take hc'
            rw [this] at hnull0
            exact absurd hnull0 (by simp)
          have hp' := parse_length_take (m := 36) (by omega) hp (k := j) (by omega)
          have hlt : (buf.take j).length = j := by
            rw [List.length_take]
            exact min_eq_left hjl
          have := BulkString.decode_eq_of hnull' hp'
            (by rw [List.length_drop, hlt]; simp only [CRLF_LEN]; omega)
          rw [this, List.drop_take, List.take_take,
            min_eq_left (by simp only [CRLF_LEN]; omega)]

/-- Probe take-stability for `BulkString`. -/
theorem BulkString.expect_take {buf : Buf} {n j : Nat}
    (h : BulkString.expect_length buf = .ok n) (hj : n ≤ j) :
    BulkString.expect_length (buf.take j) = .ok n := by
  obtain ⟨e, len, hp, rfl⟩ := BulkString.expect_length_ok h
  simp only [CRLF_LEN] at hj
  have hp' := parse_length_take (m := 36) (by omega) hp (k := j) (by omega)
  unfold BulkString.expect_length
  rw [hp']

/-! # Lemmas about the simple-frame decoders -/

theorem extract_simple_eq {buf : Buf} {m e : Nat}
    (hlen : 3 ≤ buf.length) (hhead : buf.head? = some m) (hfind : findCRLF buf = some e) :
    extract_simple_frame_data buf m = .ok e := by
  unfold extract_simple_frame_data
  rw [if_neg (by omega)]
  simp only [hhead, hfind, eq_self_iff_true, if_true]

theorem extract_simple_bounds {buf : Buf} {m e : Nat} (hm : m ≠ 13)
    (h : extract_simple_frame_data buf m = .ok e) : 1 ≤ e ∧ e + 2 ≤ buf.length := by
  obtain ⟨h3, hhead, hfind⟩ := extract_simple_ok h
  have hb := findCRLF_bound hfind
  refine ⟨?_, hb⟩
  by_contra he
  have he0 : e = 0 := by omega
  subst he0
  rcases buf with _ | ⟨a, rest⟩
  · simp at hhead
  rcases rest with _ | ⟨b, tl⟩
  · simp at h3
  obtain ⟨h13, _⟩ := findCRLF_zero hfind
  simp only [List.head?_cons, Option.some.injEq] at hhead
  exact hm (by omega)

theorem extract_simple_take {buf : Buf} {m e j : Nat} (hm : m ≠ 13)
    (h : extract_simple_frame_data buf m = .ok e) (hj : e + 2 ≤ j) :
    extract_simple_frame_data (buf.take j) m = .ok e := by
  obtain ⟨h3, hhead, hfind⟩ := extract_simple_ok h
  obtain ⟨he1, hb⟩ := extract_simple_bounds hm h
  apply extract_simple_eq
  · rw [List.length_take]
    omega
  · rcases buf with _ | ⟨a, rest⟩
    · simp at hhead
    · cases j with
      | zero => omega
      | succ j' => simpa using hhead
  · exact findCRLF_take hfind hj

theorem SimpleString.decode_error_simple {buf : Buf} {er : RespError} {k : Nat}
    (h : SimpleString.decode buf = (.error er, k)) : k = 0 := by
  unfold SimpleString.decode at h
  split at h <;> simp_all

theorem SimpleString.decode_ok_simple {buf : Buf} {v : Buf} {k : Nat}
    (h : SimpleString.decode buf = (.ok v, k)) :
    ∃ e, extract_simple_frame_data buf 43 = .ok e ∧ v = (buf.drop 1).take (e - 1) ∧
      k = e + CRLF_LEN := by
  unfold SimpleString.decode at h
  split at h
  · simp at h
  · rename_i e he
    simp only [Prod.mk.injEq, Except.ok.injEq] at h
    exact ⟨e, he, h.1.symm, h.2.symm⟩

theorem SimpleString.decode_take_simple {buf : Buf} {v : Buf} {k : Nat}
    (h : SimpleString.decode buf = (.ok v, k)) :
    k ≤ buf.length ∧ ∀ j, k ≤ j → SimpleString.decode (buf.take j) = (.ok v, k) := by
  obtain ⟨e, he, rfl, rfl⟩ := SimpleString.decode_ok_simple h
  obtain ⟨he1, hb⟩ := extract_simple_bounds (by omega) he
  simp only [CRLF_LEN]
  refine ⟨hb, fun j hj => ?_⟩
  have he' := extract_simple_take (m := 43) (by omega) he (j := j) (by omega)
  unfold SimpleString.decode
  rw [he']
  simp only [Prod.mk.injEq, Except.ok.injEq, CRLF_LEN, and_true]
  rw [List.drop_take, List.take_take, min_eq_left (by omega)]

theorem RespInt.decode_error_nc {buf : Buf} {k : Nat}
    (h : RespInt.decode buf = (.error .notComplete, k)) : k = 0 := by
  unfold RespInt.decode at h
  split at h
  · simp only [Prod.mk.injEq] at h
    exact h.2.symm
  · split at h <;> simp_all

theorem RespInt.decode_ok_int {buf : Buf} {v : Int} {k : Nat}
    (h : RespInt.decode buf = (.ok v, k)) :
    ∃ e, extract_simple_frame_data buf 58 = .ok e ∧
      parseI64 ((buf.drop 1).take (e - 1)) = some v ∧ k = e + CRLF_LEN := by
  unfold RespInt.decode at h
  split at h
  · simp at h
  · rename_i e he
    split at h
    · rename_i i hi
      simp only [Prod.mk.injEq, Except.ok.injEq] at h
      exact ⟨e, he, h.1 ▸ hi, h.2.symm⟩
    · simp at h

/-- Introduction form for a successful integer decode. -/
theorem RespInt.decode_eq_some {buf : Buf} {e : Nat} {i : Int}
    (he : extract_simple_frame_data buf 58 = .ok e)
    (hp : parseI64 ((buf.drop 1).take (e - 1)) = some i) :
    RespInt.decode buf = (.ok i, e + CRLF_LEN) := by
  unfold RespInt.decode
  simp only [he, hp]

theorem RespInt.decode_take_int {buf : Buf} {v : Int} {k : Nat}
    (h : RespInt.decode buf = (.ok v, k)) :
    k ≤ buf.length ∧ ∀ j, k ≤ j → RespInt.decode (buf.take j) = (.ok v, k) := by
  obtain ⟨e, he, hi, rfl⟩ := RespInt.decode_ok_int h
  obtain ⟨he1, hb⟩ := extract_simple_bounds (by omega) he
  simp only [CRLF_LEN]
  refine ⟨hb, fun j hj => ?_⟩
  have he' := extract_simple_take (m := 58) (by omega) he (j := j) (by omega)
  have hslice : ((buf.take j).drop 1).take (e - 1) = (buf.drop 1).take (e - 1) := by
    rw [List.drop_take, List.take_take, min_eq_left (by omega)]
  have := RespInt.decode_eq_some he' (by rw [hslice]; exact hi)
  simpa [CRLF_LEN] using this

/-- A probe/decode agreement for the `:` kind: given the probed header, the
decoder either succeeds consuming it or fails with a parse error. -/
theorem RespInt.decode_of_extract {buf : Buf} {e : Nat}
    (he : extract_simple_frame_data buf 58 = .ok e) :
    (∃ i, RespInt.decode buf = (.ok i, e + CRLF_LEN)) ∨
      RespInt.decode buf = (.error .parseIntError, e + CRLF_LEN) := by
  unfold RespInt.decode
  simp only [he]
  cases hi : parseI64 ((buf.drop 1).take (e - 1)) with
  | some i => exact Or.inl ⟨i, rfl⟩
  | none => exact Or.inr rfl

theorem RespNull.decode_error_null {buf : Buf} {er : RespError} {k : Nat}
    (h : RespNull.decode buf = (.error er, k)) : k = 0 := by
  unfold RespNull.decode extract_fixed_data at h
  split at h
  · simp only [Prod.mk.injEq] at h
    exact h.2.symm
  · simp at h

theorem RespNull.decode_ok_null {buf : Buf} {k : Nat}
    (h : RespNull.decode buf = (.ok (), k)) :
    k = 3 ∧ ([95, 13, 10] : Buf).isPrefixOf buf = true := by
  unfold RespNull.decode extract_fixed_data at h
  split at h
  · simp at h
  · rename_i u heq
    simp only [Prod.mk.injEq] at h
    refine ⟨h.2.symm, ?_⟩
    split at heq
    · simp at heq
    · split at heq
      · assumption
      · simp at heq

theorem RespNull.decode_take_null {buf : Buf} {k : Nat}
    (h : RespNull.decode buf = (.ok (), k)) :
    k ≤ buf.length ∧ ∀ j, k ≤ j → RespNull.decode (buf.take j) = (.ok (), k) := by
  obtain ⟨rfl, hpre⟩ := RespNull.decode_ok_null h
  have h3 : 3 ≤ buf.length := by simpa using isPrefixOf_length hpre
  refine ⟨h3, fun j hj => ?_⟩
  have hpre' : ([95, 13, 10] : Buf).isPrefixOf (buf.take j) = true :=
    isPrefixOf_take hpre (by simpa using hj)
  unfold RespNull.decode extract_fixed_data
  rw [if_neg (by
    have := isPrefixOf_length hpre'
    simp only [List.length_cons, List.length_nil] at this ⊢
    omega)]
  simp [hpre']

/-- Probe/decode agreement for the `_` kind. -/
theorem RespNull.decode_of_length {buf : Buf} (h3 : 3 ≤ buf.length) :
    RespNull.decode buf = (.ok (), 3) ∨
      ∃ k, RespNull.decode buf = (.error .invalidFrame, k) := by
  unfold RespNull.decode extract_fixed_data
  rw [if_neg (by simpa using by omega)]
  by_cases hpre : ([95, 13, 10] : Buf).isPrefixOf buf = true
  · rw [hpre]
    exact Or.inl rfl
  · rw [if_neg (by simpa using hpre)]
    exact Or.inr ⟨0, rfl⟩

/-! # Generic lemmas about the element probe and decode loops -/

theorem probeElemsF_zero_ok {fexp : Buf → Except RespError Nat} {data : Buf} {s : Nat}
    (h : probeElemsF fexp 0 data = .ok s) : s = 0 := by
  have : Except.ok (ε := RespError) 0 = .ok s := h
  simpa using this.symm

theorem probeElemsF_succ_ok {fexp : Buf → Except RespError Nat} {m : Nat} {data : Buf} {s : Nat}
    (h : probeElemsF fexp (m + 1) data = .ok s) :
    ∃ n₁ s', fexp data = .ok n₁ ∧ probeElemsF fexp m (data.drop n₁) = .ok s' ∧ s = n₁ + s' := by
  rw [probeElemsF] at h
  split at h
  · simp at h
  · rename_i n₁ hf
    split at h
    · simp at h
    · rename_i s' hr
      simp only [Except.ok.injEq] at h
      exact ⟨n₁, s', hf, hr, h.symm⟩

theorem probeElemsF_succ_eq {fexp : Buf → Except RespError Nat} {m : Nat} {data : Buf}
    {n₁ s' : Nat} (hf : fexp data = .ok n₁)
    (hr : probeElemsF fexp m (data.drop n₁) = .ok s') :
    probeElemsF fexp (m + 1) data = .ok (n₁ + s') := by
  rw [probeElemsF]
  simp only [hf, hr]

theorem decodeElemsF_succ_ok {fdec : Buf → Except RespError RespFrame × Nat} {m : Nat}
    {data : Buf} {fs : List RespFrame} {k : Nat}
    (h : decodeElemsF fdec (m + 1) data = (.ok fs, k)) :
    ∃ f n₁ fs' k', fdec data = (.ok f, n₁) ∧
      decodeElemsF fdec m (data.drop n₁) = (.ok fs', k') ∧ fs = f :: fs' ∧ k = n₁ + k' := by
  rw [decodeElemsF] at h
  split at h
  · simp at h
  · rename_i f n₁ hf
    split at h
    · simp at h
    · rename_i fs' k' hr
      simp only [Prod.mk.injEq, Except.ok.injEq] at h
      exact ⟨f, n₁, fs', k', hf, hr, h.1.symm, h.2.symm⟩

theorem decodeElemsF_succ_eq {fdec : Buf → Except RespError RespFrame × Nat} {m : Nat}
    {data : Buf} {f : RespFrame} {n₁ : Nat} {fs' : List RespFrame} {k' : Nat}
    (hf : fdec data = (.ok f, n₁)) (hr : decodeElemsF fdec m (data.drop n₁) = (.ok fs', k')) :
    decodeElemsF fdec (m + 1) data = (.ok (f :: fs'), n₁ + k') := by
  rw [decodeElemsF]
  simp only [hf, hr]

/-- When the probe succeeded within the available bytes, the decode loop
either succeeds consuming exactly the probed total or fails with an error
other than the incomplete signal. -/
theorem decodeElemsF_of_probe (fdec : Buf → Except RespError RespFrame × Nat)
    (fexp : Buf → Except RespError Nat) (B : Nat)
    (helem : ∀ b n, b.length ≤ B → fexp b = .ok n → n ≤ b.length →
      (∃ f, fdec b = (.ok f, n)) ∨ (∃ er k, fdec b = (.error er, k) ∧ er ≠ .notComplete)) :
    ∀ m (data : Buf) (s : Nat), data.length ≤ B → probeElemsF fexp m data = .ok s →
      s ≤ data.length →
      (∃ fs, decodeElemsF fdec m data = (.ok fs, s)) ∨
        (∃ er k, decodeElemsF fdec m data = (.error er, k) ∧ er ≠ .notComplete) := by
  intro m
  induction m with
  | zero =>
    intro data s _ hp _
    have := probeElemsF_zero_ok hp
    subst this
    exact Or.inl ⟨[], rfl⟩
  | succ m ih =>
    intro data s hB hp hs
    obtain ⟨n₁, s', hf, hr, rfl⟩ := probeElemsF_succ_ok hp
    have hn₁ : n₁ ≤ data.length := by omega
    rcases helem data n₁ hB hf hn₁ with ⟨f, hdf⟩ | ⟨er, k, hdf, hner⟩
    · have hlen : (data.drop n₁).length ≤ B := by
        rw [List.length_drop]
        omega
      have hs' : s' ≤ (data.drop n₁).length := by
        rw [List.length_drop]
        omega
      rcases ih (data.drop n₁) s' hlen hr hs' with ⟨fs, hfs⟩ | ⟨er, k, hfs, hner⟩
      · refine Or.inl ⟨f :: fs, ?_⟩
        rw [decodeElemsF]
        simp only [hdf, hfs]
      · refine Or.inr ⟨er, n₁ + k, ?_, hner⟩
        rw [decodeElemsF]
        simp only [hdf, hfs]
    · refine Or.inr ⟨er, k, ?_, hner⟩
      rw [decodeElemsF]
      simp only [hdf]

/-- The probe loop is stable under truncation beyond the probed total. -/
theorem probeElemsF_take (fexp : Buf → Except RespError Nat) (B : Nat)
    (hE : ∀ (b : Buf) (n j : Nat), b.length ≤ B → fexp b = .ok n → n ≤ j →
      fexp (b.take j) = .ok n) :
    ∀ m (data : Buf) (s j : Nat), data.length ≤ B → probeElemsF fexp m data = .ok s →
      s ≤ j → probeElemsF fexp m (data.take j) = .ok s := by
  intro m
  induction m with
  | zero =>
    intro data s j _ hp _
    have := probeElemsF_zero_ok hp
    subst this
    rfl
  | succ m ih =>
    intro data s j hB hp hsj
    obtain ⟨n₁, s', hf, hr, rfl⟩ := probeElemsF_succ_ok hp
    have hf' := hE data n₁ j hB hf (by omega)
    have hrest := ih (data.drop n₁) s' (j - n₁)
      (by rw [List.length_drop]; omega) hr (by omega)
    refine probeElemsF_succ_eq hf' ?_
    rw [List.drop_take]
    exact hrest

/-- The decode loop is stable under truncation beyond the consumed total. -/
theorem decodeElemsF_take (fdec : Buf → Except RespError RespFrame × Nat) (B : Nat)
    (hS : ∀ (b : Buf) (f : RespFrame) (n : Nat), b.length ≤ B → fdec b = (.ok f, n) →
      n ≤ b.length ∧ ∀ j, n ≤ j → fdec (b.take j) = (.ok f, n)) :
    ∀ m (data : Buf) (fs : List RespFrame) (k j : Nat), data.length ≤ B →
      decodeElemsF fdec m data = (.ok fs, k) → k ≤ j →
      decodeElemsF fdec m (data.take j) = (.ok fs, k) := by
  intro m
  induction m with
  | zero =>
    intro data fs k j _ h _
    have h' : ((.ok [], 0) : Except RespError (List RespFrame) × Nat) = (.ok fs, k) := h
    simp only [Prod.mk.injEq, Except.ok.injEq] at h'
    obtain ⟨rfl, rfl⟩ := h'
    rfl
  | succ m ih =>
    intro data fs k j hB h hkj
    obtain ⟨f, n₁, fs', k', hf, hr, rfl, rfl⟩ := decodeElemsF_succ_ok h
    obtain ⟨hn₁, hftake⟩ := hS data f n₁ hB hf
    have hf' := hftake j (by omega)
    have hrest := ih (data.drop n₁) fs' k' (j - n₁)
      (by rw [List.length_drop]; omega) hr (by omega)
    refine decodeElemsF_succ_eq hf' ?_
    rw [List.drop_take]
    exact hrest

/-- The probe loop only depends on the probe function's behaviour on the
probed data and its suffixes. -/
theorem probeElemsF_congr {f g : Buf → Except RespError Nat} :
    ∀ (m : Nat) (data : Buf), (∀ b : Buf, b.length ≤ data.length → f b = g b) →
      probeElemsF f m data = probeElemsF g m data := by
  intro m
  induction m with
  | zero => intro data _; rfl
  | succ m ih =>
    intro data hfg
    rw [probeElemsF, probeElemsF, hfg data le_rfl]
    cases hg : g data with
    | error e => rfl
    | ok k =>
      dsimp only
      rw [ih (data.drop k) (fun b hb => hfg b (by
        rw [List.length_drop] at hb
        omega))]

/-- The decode loop only depends on the decoder's behaviour on the data and
its suffixes. -/
theorem decodeElemsF_congr {f g : Buf → Except RespError RespFrame × Nat} :
    ∀ (m : Nat) (data : Buf), (∀ b : Buf, b.length ≤ data.length → f b = g b) →
      decodeElemsF f m data = decodeElemsF g m data := by
  intro m
  induction m with
  | zero => intro data _; rfl
  | succ m ih =>
    intro data hfg
    rw [decodeElemsF, decodeElemsF, hfg data le_rfl]
    cases hg : g data with
    | mk res k =>
      cases res with
      | error e => rfl
      | ok fr =>
        dsimp only
        rw [ih (data.drop k) (fun b hb => hfg b (by
          rw [List.length_drop] at hb
          omega))]

/-! # Generic lemmas about the array probe and decoder -/

theorem RespArray.expect_lengthF_ok {fexp : Buf → Except RespError Nat} {buf : Buf} {n : Nat}
    (h : RespArray.expect_lengthF fexp buf = .ok n) :
    (nullArrayBytes.isPrefixOf buf = true ∧ n = 5) ∨
      (nullArrayBytes.isPrefixOf buf = false ∧
        ∃ e m s, parse_length buf 42 = .ok (e, m) ∧
          probeElemsF fexp m (buf.drop (e + CRLF_LEN)) = .ok s ∧ n = e + CRLF_LEN + s) := by
  unfold RespArray.expect_lengthF at h
  split at h
  · rename_i hnull
    simp only [Except.ok.injEq] at h
    exact Or.inl ⟨hnull, h.symm⟩
  · rename_i hnull
    refine Or.inr ⟨Bool.eq_false_iff.mpr hnull, ?_⟩
    split at h
    · simp at h
    · rename_i e m hp
      split at h
      · simp at h
      · rename_i s hpr
        simp only [Except.ok.injEq] at h
        exact ⟨e, m, s, hp, hpr, h.symm⟩

theorem RespArray.expect_lengthF_null {fexp : Buf → Except RespError Nat} {buf : Buf}
    (hnull : nullArrayBytes.isPrefixOf buf = true) :
    RespArray.expect_lengthF fexp buf = .ok 5 := by
  unfold RespArray.expect_lengthF
  rw [if_pos hnull]

theorem RespArray.expect_lengthF_main {fexp : Buf → Except RespError Nat} {buf : Buf}
    {e m s : Nat} (hnull : nullArrayBytes.isPrefixOf buf = false)
    (hp : parse_length buf 42 = .ok (e, m))
    (hpr : probeElemsF fexp m (buf.drop (e + CRLF_LEN)) = .ok s) :
    RespArray.expect_lengthF fexp buf = .ok (e + CRLF_LEN + s) := by
  unfold RespArray.expect_lengthF
  simp only [hnull, Bool.false_eq_true, if_false, hp, hpr]

theorem RespArray.decodeF_null {fdec : Buf → Except RespError RespFrame × Nat}
    {fexp : Buf → Except RespError Nat} {buf : Buf}
    (hnull : nullArrayBytes.isPrefixOf buf = true) (h5 : 5 ≤ buf.length) :
    RespArray.decodeF fdec fexp buf = (.ok none, 5) := by
  unfold RespArray.decodeF extract_fixed_data
  rw [if_pos hnull, if_neg (by rw [nullArrayBytes_eq]; simpa using by omega), if_pos hnull]

theorem RespArray.decodeF_main {fdec : Buf → Except RespError RespFrame × Nat}
    {fexp : Buf → Except RespError Nat} {buf : Buf} {e m s : Nat}
    (hnull : nullArrayBytes.isPrefixOf buf = false)
    (hp : parse_length buf 42 = .ok (e, m))
    (hpr : probeElemsF fexp m (buf.drop (e + CRLF_LEN)) = .ok s)
    (hlen : e + CRLF_LEN + s ≤ buf.length) :
    RespArray.decodeF fdec fexp buf =
      (match decodeElemsF fdec m (buf.drop (e + CRLF_LEN)) with
       | (.error er, k) => (.error er, e + CRLF_LEN + k)
       | (.ok frames, k) => (.ok (some frames), e + CRLF_LEN + k)) := by
  unfold RespArray.decodeF
  simp only [hnull, Bool.false_eq_true, if_false, hp, hpr]
  rw [if_neg (by omega)]

/-- Probe/decode agreement for arrays: a successful probe with enough bytes
yields a successful decode of the probed span, or a non-incomplete error. -/
theorem RespArray.decodeF_of_expect {fdec : Buf → Except RespError RespFrame × Nat}
    {fexp : Buf → Except RespError Nat} {buf : Buf} {n : Nat}
    (hM : ∀ (b : Buf) (nn : Nat), b.length + 3 ≤ buf.length → fexp b = .ok nn →
      nn ≤ b.length → (∃ f, fdec b = (.ok f, nn)) ∨
        (∃ er k, fdec b = (.error er, k) ∧ er ≠ .notComplete))
    (he : RespArray.expect_lengthF fexp buf = .ok n) (hn : n ≤ buf.length) :
    (∃ es, RespArray.decodeF fdec fexp buf = (.ok es, n)) ∨
      (∃ er k, RespArray.decodeF fdec fexp buf = (.error er, k) ∧ er ≠ .notComplete) := by
  rcases RespArray.expect_lengthF_ok he with ⟨hnull, rfl⟩ | ⟨hnull, e, m, s, hp, hpr, rfl⟩
  · exact Or.inl ⟨none, RespArray.decodeF_null hnull hn⟩
  · have hb := parse_length_bounds (show (42 : Nat) ≠ 13 by omega) hp
    simp only [CRLF_LEN] at hn ⊢
    have hmain := @RespArray.decodeF_main fdec fexp _ _ _ _ hnull hp hpr (by
      simp only [CRLF_LEN]
      omega)
    simp only [CRLF_LEN] at hmain
    have helems := decodeElemsF_of_probe fdec fexp (buf.length - 3)
      (fun b nn hbb => hM b nn (by omega)) m (buf.drop (e + 2)) s
      (by rw [List.length_drop]; omega) (by simpa [CRLF_LEN] using hpr)
      (by rw [List.length_drop]; omega)
    rcases helems with ⟨fs, hfs⟩ | ⟨er, k, hfs, hner⟩
    · refine Or.inl ⟨some fs, ?_⟩
      rw [hmain, hfs]
    · refine Or.inr ⟨er, e + 2 + k, ?_, hner⟩
      rw [hmain, hfs]

/-- All-or-nothing: whenever the array decoder reports the incomplete
signal, it has consumed nothing. -/
theorem RespArray.decodeF_not_complete {fdec : Buf → Except RespError RespFrame × Nat}
    {fexp : Buf → Except RespError Nat} {buf : Buf} {k : Nat}
    (hM : ∀ (b : Buf) (nn : Nat), b.length + 3 ≤ buf.length → fexp b = .ok nn →
      nn ≤ b.length → (∃ f, fdec b = (.ok f, nn)) ∨
        (∃ er k, fdec b = (.error er, k) ∧ er ≠ .notComplete))
    (h : RespArray.decodeF fdec fexp buf = (.error .notComplete, k)) : k = 0 := by
  unfold RespArray.decodeF at h
  split at h
  · split at h
    · simp only [Prod.mk.injEq] at h
      exact h.2.symm
    · simp at h
  · rename_i hnull
    split at h
    · simp only [Prod.mk.injEq] at h
      exact h.2.symm
    · rename_i e m hp
      split at h
      · simp only [Prod.mk.injEq] at h
        exact h.2.symm
      · rename_i s hpr
        split at h
        · simp only [Prod.mk.injEq] at h
          exact h.2.symm
        · rename_i hlen
          have hb := parse_length_bounds (show (42 : Nat) ≠ 13 by omega) hp
          simp only [not_lt, CRLF_LEN] at hlen
          have helems := decodeElemsF_of_probe fdec fexp (buf.length - 3)
            (fun b nn hbb => hM b nn (by omega)) m (buf.drop (e + 2)) s
            (by rw [List.length_drop]; omega) (by simpa [CRLF_LEN] using hpr)
            (by rw [List.length_drop]; omega)
          rcases helems with ⟨fs, hfs⟩ | ⟨er, k', hfs, hner⟩
          · rw [show e + CRLF_LEN = e + 2 from rfl] at h
            rw [hfs] at h
            simp at h
          · rw [show e + CRLF_LEN = e + 2 from rfl] at h
            rw [hfs] at h
            simp only [Prod.mk.injEq, Except.error.injEq] at h
            exact absurd h.1 hner

/-- Take-stability of a successful array decode. -/
theorem RespArray.decodeF_take {fdec : Buf → Except RespError RespFrame × Nat}
    {fexp : Buf → Except RespError Nat} {buf : Buf} {es : Option (List RespFrame)} {k : Nat}
    (hM : ∀ (b : Buf) (nn : Nat), b.length + 3 ≤ buf.length → fexp b = .ok nn →
      nn ≤ b.length → (∃ f, fdec b = (.ok f, nn)) ∨
        (∃ er k, fdec b = (.error er, k) ∧ er ≠ .notComplete))
    (hS : ∀ (b : Buf) (f : RespFrame) (nn : Nat), b.length + 3 ≤ buf.length →
      fdec b = (.ok f, nn) → nn ≤ b.length ∧ ∀ j, nn ≤ j → fdec (b.take j) = (.ok f, nn))
    (hE : ∀ (b : Buf) (nn j : Nat), b.length + 3 ≤ buf.length → fexp b = .ok nn →
      nn ≤ j → fexp (b.take j) = .ok nn)
    (h : RespArray.decodeF fdec fexp buf = (.ok es, k)) :
    k ≤ buf.length ∧ ∀ j, k ≤ j → RespArray.decodeF fdec fexp (buf.take j) = (.ok es, k) := by
  unfold RespArray.decodeF at h
  split at h
  · rename_i hnull
    split at h
    · simp at h
    · rename_i hfix
      simp only [Prod.mk.injEq, Except.ok.injEq] at h
      obtain ⟨rfl, rfl⟩ := h
      have h5 : 5 ≤ buf.length := by
        have := isPrefixOf_length hnull
        rw [nullArrayBytes_eq] at this
        simpa using this
      refine ⟨h5, fun j hj => ?_⟩
      exact RespArray.decodeF_null (isPrefixOf_take hnull (by rw [nullArrayBytes_eq]; simpa))
        (by rw [List.length_take]; omega)
  · rename_i hnull
    have hnull0 : nullArrayBytes.isPrefixOf buf = false := Bool.eq_false_iff.mpr hnull
    split at h
    · simp at h
    · rename_i e m hp
      split at h
      · simp at h
      · rename_i s hpr
        split at h
        · simp at h
        · rename_i hlen
          simp only [not_lt, CRLF_LEN] at hlen
          have hb := parse_length_bounds (show (42 : Nat) ≠ 13 by omega) hp
          have helems := decodeElemsF_of_probe fdec fexp (buf.length - 3)
            (fun b nn hbb => hM b nn (by omega)) m (buf.drop (e + 2)) s
            (by rw [List.length_drop]; omega) (by simpa [CRLF_LEN] using hpr)
            (by rw [List.length_drop]; omega)
          rcases helems with ⟨fs, hfs⟩ | ⟨er, k', hfs, hner⟩
          · rw [show e + CRLF_LEN = e + 2 from rfl] at h
            rw [hfs] at h
            simp only [Prod.mk.injEq, Except.ok.injEq] at h
            obtain ⟨rfl, rfl⟩ := h
            refine ⟨by omega, fun j hj => ?_⟩
            have hnull' : nullArrayBytes.isPrefixOf (buf.take j) = false := by
              by_contra hc
              have hc' : nullArrayBytes.isPrefixOf (buf.take j) = true := Bool.ne_false_iff.mp hc
              rw [isPrefixOf_of_take hc'] at hnull0
              exact absurd hnull0 (by simp)
            have hp' := parse_length_take (m := 42) (by omega) hp (k := j) (by omega)
            have hpr' : probeElemsF fexp m ((buf.take j).drop (e + CRLF_LEN)) = .ok s := by
              rw [show e + CRLF_LEN = e + 2 from rfl, List.drop_take]
              exact probeElemsF_take fexp (buf.length - 3)
                (fun b nn jj hbb => hE b nn jj (by omega)) m (buf.drop (e + 2)) s (j - (e + 2))
                (by rw [List.length_drop]; omega) (by simpa [CRLF_LEN] using hpr) (by omega)
            have hes' : decodeElemsF fdec m ((buf.take j).drop (e + 2)) = (.ok fs, s) := by
              rw [List.drop_take]
              exact decodeElemsF_take fdec (buf.length - 3)
                (fun b f nn hbb => hS b f nn (by omega)) m (buf.drop (e + 2)) fs s (j - (e + 2))
                (by rw [List.length_drop]; omega) hfs (by omega)
            have hmain := @RespArray.decodeF_main fdec _ _ _ _ _ hnull' hp' hpr' (by
              rw [List.length_take]
              simp only [CRLF_LEN]
              omega)
            rw [hmain, show e + CRLF_LEN = e + 2 from rfl, hes']
          · rw [show e + CRLF_LEN = e + 2 from rfl] at h
            rw [hfs] at h
            simp at h

/-- Take-stability of a successful array probe. -/
theorem RespArray.expect_lengthF_take {fexp : Buf → Except RespError Nat} {buf : Buf} {n : Nat}
    (hE : ∀ (b : Buf) (nn j : Nat), b.length + 3 ≤ buf.length → fexp b = .ok nn →
      nn ≤ j → fexp (b.take j) = .ok nn)
    (he : RespArray.expect_lengthF fexp buf = .ok n) :
    ∀ j, n ≤ j → RespArray.expect_lengthF fexp (buf.take j) = .ok n := by
  intro j hj
  rcases RespArray.expect_lengthF_ok he with ⟨hnull, rfl⟩ | ⟨hnull, e, m, s, hp, hpr, rfl⟩
  · exact RespArray.expect_lengthF_null
      (isPrefixOf_take hnull (by rw [nullArrayBytes_eq]; simpa using hj))
  · have hb := parse_length_bounds (show (42 : Nat) ≠ 13 by omega) hp
    simp only [CRLF_LEN] at hj
    have hnull' : nullArrayBytes.isPrefixOf (buf.take j) = false := by
      by_contra hc
      have hc' : nullArrayBytes.isPrefixOf (buf.take j) = true := Bool.ne_false_iff.mp hc
      rw [isPrefixOf_of_take hc'] at hnull
      exact absurd hnull (by simp)
    have hp' := parse_length_take (m := 42) (by omega) hp (k := j) (by omega)
    have hpr' : probeElemsF fexp m ((buf.take j).drop (e + CRLF_LEN)) = .ok s := by
      rw [show e + CRLF_LEN = e + 2 from rfl, List.drop_take]
      exact probeElemsF_take fexp (buf.length - 3)
        (fun b nn jj hbb => hE b nn jj (by omega)) m (buf.drop (e + 2)) s (j - (e + 2))
        (by rw [List.length_drop]; omega) (by simpa [CRLF_LEN] using hpr) (by omega)
    exact RespArray.expect_lengthF_main hnull' hp' hpr'

/-- The array probe only depends on the element probe's behaviour on
strictly shorter buffers. -/
theorem RespArray.expect_lengthF_congr {f g : Buf → Except RespError Nat} {buf : Buf}
    (hfg : ∀ b : Buf, b.length + 3 ≤ buf.length → f b = g b) :
    RespArray.expect_lengthF f buf = RespArray.expect_lengthF g buf := by
  unfold RespArray.expect_lengthF
  split
  · rfl
  · cases hp : parse_length buf 42 with
    | error e => rfl
    | ok p =>
      obtain ⟨e, m⟩ := p
      have hb := parse_length_bounds (show (42 : Nat) ≠ 13 by omega) hp
      dsimp only
      rw [probeElemsF_congr m (buf.drop (e + CRLF_LEN)) (fun b hbb => hfg b (by
        rw [List.length_drop] at hbb
        simp only [CRLF_LEN] at hbb
        omega))]

/-- The array decoder only depends on the element functions' behaviour on
strictly shorter buffers. -/
theorem RespArray.decodeF_congr {fdec gdec : Buf → Except RespError RespFrame × Nat}
    {fexp gexp : Buf → Except RespError Nat} {buf : Buf}
    (hdec : ∀ b : Buf, b.length + 3 ≤ buf.length → fdec b = gdec b)
    (hexp : ∀ b : Buf, b.length + 3 ≤ buf.length → fexp b = gexp b) :
    RespArray.decodeF fdec fexp buf = RespArray.decodeF gdec gexp buf := by
  unfold RespArray.decodeF
  split
  · rfl
  · cases hp : parse_length buf 42 with
    | error e => rfl
    | ok p =>
      obtain ⟨e, m⟩ := p
      have hb := parse_length_bounds (show (42 : Nat) ≠ 13 by omega) hp
      dsimp only
      rw [probeElemsF_congr m (buf.drop (e + CRLF_LEN)) (fun b hbb => hexp b (by
        rw [List.length_drop] at hbb
        simp only [CRLF_LEN] at hbb
        omega))]
      cases hpr : probeElemsF gexp m (buf.drop (e + CRLF_LEN)) with
      | error er => rfl
      | ok s =>
        dsimp only
        rw [decodeElemsF_congr m (buf.drop (e + CRLF_LEN)) (fun b hbb => hdec b (by
          rw [List.length_drop] at hbb
          simp only [CRLF_LEN] at hbb
          omega))]

/-! # Lemmas about the fuelled frame dispatch -/

theorem head?_take_pos {buf : Buf} {j : Nat} (hj : 0 < j) :
    (buf.take j).head? = buf.head? := by
  cases buf with
  | nil => simp
  | cons a rest =>
    cases j with
    | zero => omega
    | succ j' => rfl

/-- Inversion of a successful fuelled probe: the marker byte determines which
kind's probe ran. -/
theorem RespFrame.expectD_ok {d : Nat} {buf : Buf} {b n : Nat} (hh : buf.head? = some b)
    (he : RespFrame.expectD (d + 1) buf = .ok n) :
    ((b = 43 ∨ b = 58) ∧ ∃ e, extract_simple_frame_data buf b = .ok e ∧ n = e + CRLF_LEN) ∨
      (b = 36 ∧ BulkString.expect_length buf = .ok n) ∨
      (b = 42 ∧ RespArray.expect_lengthF (RespFrame.expectD d) buf = .ok n) ∨
      (b = 95 ∧ n = 3) := by
  rw [RespFrame.expectD, hh] at he
  dsimp only at he
  split at he
  · rename_i hb
    refine Or.inl ⟨hb, ?_⟩
    split at he
    · simp at he
    · rename_i e hex
      simp only [Except.ok.injEq] at he
      exact ⟨e, hex, he.symm⟩
  · rename_i hb
    split at he
    · rename_i hb36
      exact Or.inr (Or.inl ⟨hb36, he⟩)
    · split at he
      · rename_i hb42
        exact Or.inr (Or.inr (Or.inl ⟨hb42, he⟩))
      · split at he
        · rename_i hb95
          simp only [Except.ok.injEq] at he
          exact Or.inr (Or.inr (Or.inr ⟨hb95, he.symm⟩))
        · simp at he

/-- A successful probe reports at least the three header bytes. -/
theorem RespFrame.expectD_ge_three {d : Nat} {buf : Buf} {n : Nat}
    (he : RespFrame.expectD d buf = .ok n) : 3 ≤ n := by
  cases d with
  | zero => simp [RespFrame.expectD] at he
  | succ d =>
    cases hh : buf.head? with
    | none => rw [RespFrame.expectD, hh] at he; simp at he
    | some b =>
      rcases RespFrame.expectD_ok hh he with ⟨hb1, e, hex, rfl⟩ | ⟨_, hbe⟩ | ⟨_, hae⟩ | ⟨_, rfl⟩
      · have := (extract_simple_bounds (m := b)
          (by rcases hb1 with rfl | rfl <;> omega) hex).1
        simp only [CRLF_LEN]
        omega
      · obtain ⟨e, len, hp, rfl⟩ := BulkString.expect_length_ok hbe
        have := (parse_length_bounds (show (36 : Nat) ≠ 13 by omega) hp).1
        simp only [CRLF_LEN]
        omega
      · rcases RespArray.expect_lengthF_ok hae with ⟨_, rfl⟩ | ⟨_, e, m, s, hp, _, rfl⟩
        · omega
        · have := (parse_length_bounds (show (42 : Nat) ≠ 13 by omega) hp).1
          simp only [CRLF_LEN]
          omega
      · omega

/-- Probe/decode agreement at the frame level: a successful probe with
enough bytes available yields a successful decode consuming exactly the
probed span, or an error other than the incomplete signal. -/
theorem decodeD_of_expectD :
    ∀ (d : Nat) (buf : Buf) (n : Nat), buf.length < d → RespFrame.expectD d buf = .ok n →
      n ≤ buf.length →
      (∃ f, RespFrame.decodeD d buf = (.ok f, n)) ∨
        (∃ er k, RespFrame.decodeD d buf = (.error er, k) ∧ er ≠ .notComplete) := by
  intro d
  induction d with
  | zero =>
    intro buf n hlen he hn
    omega
  | succ d ih =>
    intro buf n hlen he hn
    cases hh : buf.head? with
    | none =>
      rw [RespFrame.expectD, hh] at he
      simp at he
    | some b =>
      rcases RespFrame.expectD_ok hh he with ⟨hb1, e, hex, rfl⟩ | ⟨rfl, hbe⟩ | ⟨rfl, hae⟩ |
        ⟨rfl, rfl⟩
      · rcases hb1 with rfl | rfl
        · refine Or.inl ⟨.simpleString ((buf.drop 1).take (e - 1)), ?_⟩
          rw [RespFrame.decodeD, hh]
          dsimp only
          rw [if_pos rfl]
          have hs : SimpleString.decode buf = (.ok ((buf.drop 1).take (e - 1)), e + CRLF_LEN) := by
            unfold SimpleString.decode
            rw [hex]
          rw [hs]
        · rw [RespFrame.decodeD, hh]
          dsimp only
          rw [if_neg (by omega), if_pos rfl]
          rcases RespInt.decode_of_extract hex with ⟨i, hi⟩ | hi
          · exact Or.inl ⟨.integer i, by rw [hi]⟩
          · exact Or.inr ⟨.parseIntError, e + CRLF_LEN, by rw [hi], by simp⟩
      · rw [RespFrame.decodeD, hh]
        dsimp only
        rw [if_neg (by omega), if_neg (by omega), if_pos rfl]
        obtain ⟨v, hv⟩ := BulkString.decode_of_expect_bulk hbe hn
        exact Or.inl ⟨.bulkString v, by rw [hv]⟩
      · rw [RespFrame.decodeD, hh]
        dsimp only
        rw [if_neg (by omega), if_neg (by omega), if_neg (by omega), if_pos rfl]
        have hM : ∀ (b' : Buf) (nn : Nat), b'.length + 3 ≤ buf.length →
            RespFrame.expectD d b' = .ok nn → nn ≤ b'.length →
            (∃ f, RespFrame.decodeD d b' = (.ok f, nn)) ∨
              (∃ er k, RespFrame.decodeD d b' = (.error er, k) ∧ er ≠ .notComplete) :=
          fun b' nn hb' => ih b' nn (by omega)
        rcases RespArray.decodeF_of_expect hM hae hn with ⟨es, hes⟩ | ⟨er, k, hes, hner⟩
        · exact Or.inl ⟨.array es, by rw [hes]⟩
        · exact Or.inr ⟨er, k, by rw [hes], hner⟩
      · rw [RespFrame.decodeD, hh]
        dsimp only
        rw [if_neg (by omega), if_neg (by omega), if_neg (by omega), if_neg (by omega),
          if_pos rfl]
        rcases RespNull.decode_of_length hn with hv | ⟨k, hv⟩
        · exact Or.inl ⟨.null, by rw [hv]⟩
        · exact Or.inr ⟨.invalidFrame, k, by rw [hv], by simp⟩

/-- Whenever the fuelled frame decoder reports the incomplete signal it has
consumed nothing. -/
theorem decodeD_not_complete :
    ∀ (d : Nat) (buf : Buf) (k : Nat), buf.length < d →
      RespFrame.decodeD d buf = (.error .notComplete, k) → k = 0 := by
  intro d
  cases d with
  | zero =>
    intro buf k hlen h
    omega
  | succ d =>
    intro buf k hlen h
    cases hh : buf.head? with
    | none =>
      rw [RespFrame.decodeD, hh] at h
      dsimp only at h
      simp only [Prod.mk.injEq] at h
      exact h.2.symm
    | some b =>
      rw [RespFrame.decodeD, hh] at h
      dsimp only at h
      split at h
      · split at h
        · rename_i heq
          simp only [Prod.mk.injEq, Except.error.injEq] at h
          obtain ⟨rfl, rfl⟩ := h
          exact SimpleString.decode_error_simple heq
        · simp at h
      · split at h
        · split at h
          · rename_i heq
            simp only [Prod.mk.injEq, Except.error.injEq] at h
            obtain ⟨rfl, rfl⟩ := h
            exact RespInt.decode_error_nc heq
          · simp at h
        · split at h
          · split at h
            · rename_i heq
              simp only [Prod.mk.injEq, Except.error.injEq] at h
              obtain ⟨rfl, rfl⟩ := h
              exact BulkString.decode_error heq
            · simp at h
          · split at h
            · split at h
              · rename_i heq
                simp only [Prod.mk.injEq, Except.error.injEq] at h
                obtain ⟨rfl, rfl⟩ := h
                refine RespArray.decodeF_not_complete ?_ heq
                exact fun b' nn hb' => decodeD_of_expectD d b' nn (by omega)
              · simp at h
            · split at h
              · split at h
                · rename_i heq
                  simp only [Prod.mk.injEq, Except.error.injEq] at h
                  obtain ⟨rfl, rfl⟩ := h
                  exact RespNull.decode_error_null heq
                · simp at h
              · simp only [Prod.mk.injEq] at h
                exact h.2.symm

/-- Take-stability of a successful fuelled probe. -/
theorem expectD_take :
    ∀ (d : Nat) (buf : Buf) (n j : Nat), buf.length < d → RespFrame.expectD d buf = .ok n →
      n ≤ j → RespFrame.expectD d (buf.take j) = .ok n := by
  intro d
  induction d with
  | zero =>
    intro buf n j hlen he hnj
    omega
  | succ d ih =>
    intro buf n j hlen he hnj
    have h3 := RespFrame.expectD_ge_three he
    cases hh : buf.head? with
    | none =>
      rw [RespFrame.expectD, hh] at he
      simp at he
    | some b =>
      have hht : (buf.take j).head? = some b := by
        rw [head?_take_pos (by omega)]
        exact hh
      rcases RespFrame.expectD_ok hh he with ⟨hb1, e, hex, rfl⟩ | ⟨rfl, hbe⟩ | ⟨rfl, hae⟩ |
        ⟨rfl, rfl⟩
      · have hm13 : b ≠ 13 := by rcases hb1 with rfl | rfl <;> omega
        have hex' := extract_simple_take hm13 hex (j := j)
          (by simp only [CRLF_LEN] at hnj; omega)
        rw [RespFrame.expectD, hht]
        dsimp only
        rw [if_pos hb1, hex']
      · rw [RespFrame.expectD, hht]
        dsimp only
        rw [if_neg (by omega), if_pos rfl]
        exact BulkString.expect_take hbe hnj
      · rw [RespFrame.expectD, hht]
        dsimp only
        rw [if_neg (by omega), if_neg (by omega), if_pos rfl]
        refine RespArray.expect_lengthF_take ?_ hae j hnj
        exact fun b' nn jj hb' => ih b' nn jj (by omega)
      · rw [RespFrame.expectD, hht]
        dsimp only
        rw [if_neg (by omega), if_neg (by omega), if_neg (by omega), if_pos rfl]

/-- A successful bulk-string decode consumes at least one byte. -/
theorem BulkString.decode_pos {buf : Buf} {v : Option Buf} {k : Nat}
    (h : BulkString.decode buf = (.ok v, k)) : 0 < k := by
  unfold BulkString.decode at h
  split at h
  · simp only [Prod.mk.injEq] at h
    omega
  · split at h
    · simp at h
    · split at h
      · simp at h
      · simp only [Prod.mk.injEq, CRLF_LEN] at h
        omega

/-- A successful array decode consumes at least one byte. -/
theorem RespArray.decodeF_pos {fdec : Buf → Except RespError RespFrame × Nat}
    {fexp : Buf → Except RespError Nat} {buf : Buf} {es : Option (List RespFrame)} {k : Nat}
    (h : RespArray.decodeF fdec fexp buf = (.ok es, k)) : 0 < k := by
  unfold RespArray.decodeF at h
  split at h
  · split at h
    · simp at h
    · simp only [Prod.mk.injEq] at h
      omega
  · split at h
    · simp at h
    · split at h
      · simp at h
      · split at h
        · simp at h
        · split at h
          · simp at h
          · simp only [Prod.mk.injEq, CRLF_LEN] at h
            omega

/-- Take-stability of a successful fuelled decode: redecoding any truncation
that keeps the consumed bytes gives the same frame and consumption. -/
theorem decodeD_take :
    ∀ (d : Nat) (buf : Buf) (f : RespFrame) (k : Nat), buf.length < d →
      RespFrame.decodeD d buf = (.ok f, k) →
      k ≤ buf.length ∧ ∀ j, k ≤ j → RespFrame.decodeD d (buf.take j) = (.ok f, k) := by
  intro d
  induction d with
  | zero =>
    intro buf f k hlen h
    omega
  | succ d ih =>
    intro buf f k hlen h
    cases hh : buf.head? with
    | none =>
      rw [RespFrame.decodeD, hh] at h
      dsimp only at h
      simp at h
    | some b =>
      rw [RespFrame.decodeD, hh] at h
      dsimp only at h
      split at h
      · rename_i hb43
        split at h
        · simp at h
        · rename_i heq
          simp only [Prod.mk.injEq, Except.ok.injEq] at h
          obtain ⟨rfl, rfl⟩ := h
          obtain ⟨e, _, _, hkeq⟩ := SimpleString.decode_ok_simple heq
          obtain ⟨hk, htake⟩ := SimpleString.decode_take_simple heq
          refine ⟨hk, fun j hj => ?_⟩
          have hht : (buf.take j).head? = some b := by
            rw [head?_take_pos (by simp only [CRLF_LEN] at hkeq; omega)]
            exact hh
          rw [RespFrame.decodeD, hht]
          dsimp only
          rw [if_pos hb43, htake j hj]
      · rename_i hb43
        split at h
        · rename_i hb58
          split at h
          · simp at h
          · rename_i heq
            simp only [Prod.mk.injEq, Except.ok.injEq] at h
            obtain ⟨rfl, rfl⟩ := h
            obtain ⟨e, _, _, hkeq⟩ := RespInt.decode_ok_int heq
            obtain ⟨hk, htake⟩ := RespInt.decode_take_int heq
            refine ⟨hk, fun j hj => ?_⟩
            have hht : (buf.take j).head? = some b := by
              rw [head?_take_pos (by simp only [CRLF_LEN] at hkeq; omega)]
              exact hh
            rw [RespFrame.decodeD, hht]
            dsimp only
            rw [if_neg hb43, if_pos hb58, htake j hj]
        · rename_i hb58
          split at h
          · rename_i hb36
            split at h
            · simp at h
            · rename_i heq
              simp only [Prod.mk.injEq, Except.ok.injEq] at h
              obtain ⟨rfl, rfl⟩ := h
              have hpos := BulkString.decode_pos heq
              obtain ⟨hk, htake⟩ := BulkString.decode_take_bulk heq
              refine ⟨hk, fun j hj => ?_⟩
              have hht : (buf.take j).head? = some b := by
                rw [head?_take_pos (by omega)]
                exact hh
              rw [RespFrame.decodeD, hht]
              dsimp only
              rw [if_neg hb43, if_neg hb58, if_pos hb36, htake j hj]
          · rename_i hb36
            split at h
            · rename_i hb42
              split at h
              · simp at h
              · rename_i heq
                simp only [Prod.mk.injEq, Except.ok.injEq] at h
                obtain ⟨rfl, rfl⟩ := h
                have hpos := RespArray.decodeF_pos heq
                have hM : ∀ (b' : Buf) (nn : Nat), b'.length + 3 ≤ buf.length →
                    RespFrame.expectD d b' = .ok nn → nn ≤ b'.length →
                    (∃ f, RespFrame.decodeD d b' = (.ok f, nn)) ∨
                      (∃ er k, RespFrame.decodeD d b' = (.error er, k) ∧
                        er ≠ .notComplete) :=
                  fun b' nn hb' => decodeD_of_expectD d b' nn (by omega)
                have hS : ∀ (b' : Buf) (f' : RespFrame) (nn : Nat),
                    b'.length + 3 ≤ buf.length → RespFrame.decodeD d b' = (.ok f', nn) →
                    nn ≤ b'.length ∧ ∀ jj, nn ≤ jj →
                      RespFrame.decodeD d (b'.take jj) = (.ok f', nn) :=
                  fun b' f' nn hb' => ih b' f' nn (by omega)
                have hE : ∀ (b' : Buf) (nn jj : Nat), b'.length + 3 ≤ buf.length →
                    RespFrame.expectD d b' = .ok nn → nn ≤ jj →
                    RespFrame.expectD d (b'.take jj) = .ok nn :=
                  fun b' nn jj hb' => expectD_take d b' nn jj (by omega)
                obtain ⟨hk, htake⟩ := RespArray.decodeF_take hM hS hE heq
                refine ⟨hk, fun j hj => ?_⟩
                have hht : (buf.take j).head? = some b := by
                  rw [head?_take_pos (by omega)]
                  exact hh
                rw [RespFrame.decodeD, hht]
                dsimp only
                rw [if_neg hb43, if_neg hb58, if_neg hb36, if_pos hb42, htake j hj]
            · rename_i hb42
              split at h
              · rename_i hb95
                split at h
                · simp at h
                · rename_i heq
                  simp only [Prod.mk.injEq, Except.ok.injEq] at h
                  obtain ⟨rfl, rfl⟩ := h
                  obtain ⟨rfl, _⟩ := RespNull.decode_ok_null heq
                  obtain ⟨hk, htake⟩ := RespNull.decode_take_null heq
                  refine ⟨hk, fun j hj => ?_⟩
                  have hht : (buf.take j).head? = some b := by
                    rw [head?_take_pos (by omega)]
                    exact hh
                  rw [RespFrame.decodeD, hht]
                  dsimp only
                  rw [if_neg hb43, if_neg hb58, if_neg hb36, if_neg hb42, if_pos hb95,
                    htake j hj]
              · simp at h

/-- The fuelled probe and decoder do not depend on the fuel once it exceeds
the buffer length. -/
theorem expectD_decodeD_agree :
    ∀ (L : Nat) (buf : Buf) (d₁ d₂ : Nat), buf.length < L → buf.length < d₁ →
      buf.length < d₂ →
      RespFrame.expectD d₁ buf = RespFrame.expectD d₂ buf ∧
        RespFrame.decodeD d₁ buf = RespFrame.decodeD d₂ buf := by
  intro L
  induction L with
  | zero =>
    intro buf d₁ d₂ hL h1 h2
    omega
  | succ L ih =>
    intro buf d₁ d₂ hL h1 h2
    obtain ⟨e₁, rfl⟩ : ∃ t, d₁ = t + 1 := ⟨d₁ - 1, by omega⟩
    obtain ⟨e₂, rfl⟩ : ∃ t, d₂ = t + 1 := ⟨d₂ - 1, by omega⟩
    have hcexp : ∀ b' : Buf, b'.length + 3 ≤ buf.length →
        RespFrame.expectD e₁ b' = RespFrame.expectD e₂ b' :=
      fun b' hb' => (ih b' e₁ e₂ (by omega) (by omega) (by omega)).1
    have hcdec : ∀ b' : Buf, b'.length + 3 ≤ buf.length →
        RespFrame.decodeD e₁ b' = RespFrame.decodeD e₂ b' :=
      fun b' hb' => (ih b' e₁ e₂ (by omega) (by omega) (by omega)).2
    constructor
    · rw [RespFrame.expectD, RespFrame.expectD]
      cases hh : buf.head? with
      | none => rfl
      | some b =>
        dsimp only
        by_cases hb1 : b = 43 ∨ b = 58
        · rw [if_pos hb1, if_pos hb1]
        · rw [if_neg hb1, if_neg hb1]
          by_cases hb36 : b = 36
          · rw [if_pos hb36, if_pos hb36]
          · rw [if_neg hb36, if_neg hb36]
            by_cases hb42 : b = 42
            · rw [if_pos hb42, if_pos hb42]
              exact RespArray.expect_lengthF_congr hcexp
            · rw [if_neg hb42, if_neg hb42]
    · rw [RespFrame.decodeD, RespFrame.decodeD]
      cases hh : buf.head? with
      | none => rfl
      | some b =>
        dsimp only
        by_cases hb43 : b = 43
        · rw [if_pos hb43, if_pos hb43]
        · rw [if_neg hb43, if_neg hb43]
          by_cases hb58 : b = 58
          · rw [if_pos hb58, if_pos hb58]
          · rw [if_neg hb58, if_neg hb58]
            by_cases hb36 : b = 36
            · rw [if_pos hb36, if_pos hb36]
            · rw [if_neg hb36, if_neg hb36]
              by_cases hb42 : b = 42
              · rw [if_pos hb42, if_pos hb42]
                rw [RespArray.decodeF_congr hcdec hcexp]
              · rw [if_neg hb42, if_neg hb42]

theorem expect_length_eq_expectD {buf : Buf} {d : Nat} (h : buf.length < d) :
    RespFrame.expect_length buf = RespFrame.expectD d buf :=
  (expectD_decodeD_agree (buf.length + 1) buf (buf.length + 1) d (by omega) (by omega) h).1

theorem decode_eq_decodeD {buf : Buf} {d : Nat} (h : buf.length < d) :
    RespFrame.decode buf = RespFrame.decodeD d buf :=
  (expectD_decodeD_agree (buf.length + 1) buf (buf.length + 1) d (by omega) (by omega) h).2

/-- Probe/decode agreement for `RespFrame.decode`. -/
theorem RespFrame.decode_of_expect_frame {buf : Buf} {n : Nat}
    (he : RespFrame.expect_length buf = .ok n) (hn : n ≤ buf.length) :
    (∃ f, RespFrame.decode buf = (.ok f, n)) ∨
      (∃ er k, RespFrame.decode buf = (.error er, k) ∧ er ≠ .notComplete) :=
  decodeD_of_expectD (buf.length + 1) buf n (by omega) he hn

/-- `RespFrame.decode` never consumes bytes with the incomplete signal. -/
theorem RespFrame.decode_not_complete_frame {buf : Buf} {k : Nat}
    (h : RespFrame.decode buf = (.error .notComplete, k)) : k = 0 :=
  decodeD_not_complete (buf.length + 1) buf k (by omega) h

/-- Take-stability of `RespFrame.expect_length`. -/
theorem RespFrame.expect_length_take {buf : Buf} {n j : Nat}
    (he : RespFrame.expect_length buf = .ok n) (hj : n ≤ j) :
    RespFrame.expect_length (buf.take j) = .ok n := by
  have h1 := expectD_take (buf.length + 1) buf n j (by omega) he hj
  rw [@expect_length_eq_expectD (buf.take j) (buf.length + 1) (by
    have : (buf.take j).length ≤ buf.length := by
      rw [List.length_take]
      omega
    omega)]
  exact h1

/-- Take-stability of `RespFrame.decode`. -/
theorem RespFrame.decode_take_frame {buf : Buf} {f : RespFrame} {k : Nat}
    (h : RespFrame.decode buf = (.ok f, k)) :
    k ≤ buf.length ∧ ∀ j, k ≤ j → RespFrame.decode (buf.take j) = (.ok f, k) := by
  obtain ⟨hk, htake⟩ := decodeD_take (buf.length + 1) buf f k (by omega) h
  refine ⟨hk, fun j hj => ?_⟩
  rw [@decode_eq_decodeD (buf.take j) (buf.length + 1) (by
    have : (buf.take j).length ≤ buf.length := by
      rw [List.length_take]
      omega
    omega)]
  exact htake j hj

/-- `RespArray.decode` never consumes bytes with the incomplete signal. -/
theorem RespArray.decode_not_complete_array {buf : Buf} {k : Nat}
    (h : RespArray.decode buf = (.error .notComplete, k)) : k = 0 := by
  refine RespArray.decodeF_not_complete ?_ h
  exact fun b nn _ he hn => RespFrame.decode_of_expect_frame he hn

/-- Take-stability of a successful `RespArray.decode`. -/
theorem RespArray.decode_take_array {buf : Buf} {es : Option (List RespFrame)} {k : Nat}
    (h : RespArray.decode buf = (.ok es, k)) :
    k ≤ buf.length ∧ ∀ j, k ≤ j → RespArray.decode (buf.take j) = (.ok es, k) := by
  refine RespArray.decodeF_take ?_ ?_ ?_ h
  · exact fun b nn _ he hn => RespFrame.decode_of_expect_frame he hn
  · exact fun b f nn _ hd => RespFrame.decode_take_frame hd
  · exact fun b nn jj _ he hnj => RespFrame.expect_length_take he hnj

/-- C1: for every byte buffer, when `BulkString::decode` or
`RespArray::decode` reports `RespError::NotComplete` it has consumed
nothing, so the buffer (the remaining `buf.drop consumed`) is left
byte-for-byte unchanged; and when decode succeeds with `k` bytes consumed,
exactly the decoded frame's bytes are removed from the front: the buffer
splits as the removed prefix `buf.take k` followed by the untouched rest,
and that prefix alone decodes to the same value consuming all of its `k`
bytes.  This holds for arrays with arbitrary nested elements, including
arrays whose element bytes are only partially present. -/
theorem decode_all_or_nothing :
    (∀ (buf : Buf) (k : Nat), BulkString.decode buf = (.error .notComplete, k) → k = 0)
    ∧ (∀ (buf : Buf) (v : Option Buf) (k : Nat), BulkString.decode buf = (.ok v, k) →
        k ≤ buf.length ∧ buf = buf.take k ++ buf.drop k ∧
          BulkString.decode (buf.take k) = (.ok v, k))
    ∧ (∀ (buf : Buf) (k : Nat), RespArray.decode buf = (.error .notComplete, k) → k = 0)
    ∧ (∀ (buf : Buf) (es : Option (List RespFrame)) (k : Nat),
        RespArray.decode buf = (.ok es, k) →
        k ≤ buf.length ∧ buf = buf.take k ++ buf.drop k ∧
          RespArray.decode (buf.take k) = (.ok es, k)) := by
  refine ⟨?_, ?_, ?_, ?_⟩
  · intro buf k h
    exact BulkString.decode_error h
  · intro buf v k h
    obtain ⟨hk, ht⟩ := BulkString.decode_take_bulk h
    exact ⟨hk, (List.take_append_drop k buf).symm, ht k le_rfl⟩
  · intro buf k h
    exact RespArray.decode_not_complete_array h
  · intro buf es k h
    obtain ⟨hk, ht⟩ := RespArray.decode_take_array h
    exact ⟨hk, (List.take_append_drop k buf).symm, ht k le_rfl⟩

/-- Witness for C1 at concrete buffers: an incomplete bulk string and an
incomplete array (second element missing) consume nothing; a complete bulk
string and a complete array followed by trailing garbage consume exactly
their frames' bytes. -/
theorem decode_all_or_nothing_witness :
    ((0 : Nat) = 0) ∧
    (8 ≤ (strBytes "$2\r\nab\r\nXY").length ∧
      strBytes "$2\r\nab\r\nXY" =
        (strBytes "$2\r\nab\r\nXY").take 8 ++ (strBytes "$2\r\nab\r\nXY").drop 8 ∧
      BulkString.decode ((strBytes "$2\r\nab\r\nXY").take 8) =
        (.ok (some (strBytes "ab")), 8)) ∧
    ((0 : Nat) = 0) ∧
    (11 ≤ (strBytes "*1\r\n$1\r\na\r\nZZ").length ∧
      strBytes "*1\r\n$1\r\na\r\nZZ" =
        (strBytes "*1\r\n$1\r\na\r\nZZ").take 11 ++ (strBytes "*1\r\n$1\r\na\r\nZZ").drop 11 ∧
      RespArray.decode ((strBytes "*1\r\n$1\r\na\r\nZZ").take 11) =
        (.ok (some [.bulkString (some (strBytes "a"))]), 11)) :=
  ⟨decode_all_or_nothing.1 (strBytes "$5\r\nhel") 0 rfl,
   decode_all_or_nothing.2.1 (strBytes "$2\r\nab\r\nXY") (some (strBytes "ab")) 8 rfl,
   decode_all_or_nothing.2.2.1 (strBytes "*2\r\n$3\r\nget\r\n") 0 rfl,
   decode_all_or_nothing.2.2.2 (strBytes "*1\r\n$1\r\na\r\nZZ")
     (some [.bulkString (some (strBytes "a"))]) 11 rfl⟩

/-- C8: the absent BulkString encodes exactly to the `$-1\r\n` sentinel and
the absent Array exactly to `*-1\r\n`; decoding either sentinel restores
the absent value, consuming exactly the sentinel; and the absent values are
never structurally equal to the present-but-empty ones. -/
theorem null_sentinel_round_trip :
    RespFrame.encode (.bulkString none) = strBytes "$-1\r\n" ∧
    RespFrame.encode (.array none) = strBytes "*-1\r\n" ∧
    BulkString.decode (strBytes "$-1\r\n") = (.ok none, 5) ∧
    RespArray.decode (strBytes "*-1\r\n") = (.ok none, 5) ∧
    RespFrame.bulkString none ≠ RespFrame.bulkString (some []) ∧
    RespFrame.array none ≠ RespFrame.array (some []) := by
  refine ⟨rfl, rfl, rfl, rfl, by simp, by simp⟩

/-- C2 counterexample: the round-trip fails on an array nesting a null
BulkString.  `encode` produces `*1\r\n$-1\r\n`, but decoding it fails with
a length-parse error (no bytes consumed), because the recursive probe
(`calc_total_length` → `BulkString::expect_length`) runs `parse_length`
on the `$-1\r\n` sentinel and `-1` has no digits. -/
theorem round_trip_fails_on_nested_null_bulkstring :
    RespFrame.decode (RespFrame.encode (.array (some [.bulkString none]))) =
      (.error .parseIntError, 0) := rfl

/-! # Decoding a canonical encoding -/

theorem check_null_encode_false (L : Nat) (t : Buf) :
    check_null_bulkstring (36 :: lenDigits L ++ t) = false := by
  unfold check_null_bulkstring
  rw [nullBulkStringBytes_eq]
  cases hds : lenDigits L with
  | nil => exact absurd hds (lenDigits_ne_nil L)
  | cons hdd tl =>
    have hd := (lenDigits_all_digit L hdd (by rw [hds]; simp)).1
    have h45 : ((45 : Nat) == hdd) = false := by
      simp only [beq_eq_false_iff_ne, ne_eq]
      omega
    simp [List.isPrefixOf, h45]

theorem null_array_encode_false (L : Nat) (t : Buf) :
    nullArrayBytes.isPrefixOf (42 :: lenDigits L ++ t) = false := by
  rw [nullArrayBytes_eq]
  cases hds : lenDigits L with
  | nil => exact absurd hds (lenDigits_ne_nil L)
  | cons hdd tl =>
    have hd := (lenDigits_all_digit L hdd (by rw [hds]; simp)).1
    have h45 : ((45 : Nat) == hdd) = false := by
      simp only [beq_eq_false_iff_ne, ne_eq]
      omega
    simp [List.isPrefixOf, h45]

/-- The bulk-string probe measures exactly the encoded frame at the head of
the buffer. -/
theorem BulkString.expect_length_encode (data rest : Buf) :
    BulkString.expect_length ((36 :: lenDigits data.length ++ CRLF ++ data ++ CRLF) ++ rest) =
      .ok (36 :: lenDigits data.length ++ CRLF ++ data ++ CRLF).length := by
  have hshape : (36 :: lenDigits data.length ++ CRLF ++ data ++ CRLF) ++ rest =
      36 :: lenDigits data.length ++ 13 :: 10 :: (data ++ (CRLF ++ rest)) := by
    simp [CRLF]
  rw [hshape]
  unfold BulkString.expect_length
  rw [parse_length_encode (by omega) (data ++ (CRLF ++ rest))]
  simp only [List.length_cons, List.length_append, CRLF, CRLF_LEN]
  simp

/-- The bulk-string decoder consumes exactly the encoded frame at the head
of the buffer and returns its payload. -/
theorem BulkString.decode_encode (data rest : Buf) :
    BulkString.decode ((36 :: lenDigits data.length ++ CRLF ++ data ++ CRLF) ++ rest) =
      (.ok (some data), (36 :: lenDigits data.length ++ CRLF ++ data ++ CRLF).length) := by
  have hshape : (36 :: lenDigits data.length ++ CRLF ++ data ++ CRLF) ++ rest =
      36 :: lenDigits data.length ++ 13 :: 10 :: (data ++ (CRLF ++ rest)) := by
    simp [CRLF]
  have hnull : check_null_bulkstring
      ((36 :: lenDigits data.length ++ CRLF ++ data ++ CRLF) ++ rest) = false := by
    have := check_null_encode_false data.length
      ((CRLF ++ data ++ CRLF) ++ rest)
    rw [show 36 :: lenDigits data.length ++ ((CRLF ++ data ++ CRLF) ++ rest) =
      (36 :: lenDigits data.length ++ CRLF ++ data ++ CRLF) ++ rest by simp] at this
    exact this
  have hp : parse_length ((36 :: lenDigits data.length ++ CRLF ++ data ++ CRLF) ++ rest) 36 =
      .ok ((lenDigits data.length).length + 1, data.length) := by
    rw [hshape]
    exact parse_length_encode (by omega) (data ++ (CRLF ++ rest))
  have hdropq : ((36 :: lenDigits data.length ++ CRLF ++ data ++ CRLF) ++ rest).drop
      ((lenDigits data.length).length + 1 + CRLF_LEN) = data ++ (CRLF ++ rest) := by
    rw [hshape]
    rw [show (36 : Nat) :: lenDigits data.length ++ 13 :: 10 :: (data ++ (CRLF ++ rest)) =
      (36 :: lenDigits data.length ++ [13, 10]) ++ (data ++ (CRLF ++ rest)) by simp]
    rw [show (lenDigits data.length).length + 1 + CRLF_LEN =
      (36 :: lenDigits data.length ++ [13, 10]).length by simp [CRLF_LEN]]
    exact List.drop_left _ _
  have hd := BulkString.decode_eq_of hnull hp (by
    rw [hdropq]
    simp only [List.length_append, CRLF, List.length_cons, List.length_nil, CRLF_LEN]
    omega)
  rw [hd, hdropq]
  rw [List.take_left]
  congr 1
  simp only [List.length_cons, List.length_append, CRLF, CRLF_LEN]
  simp

/-- The fuelled probe measures exactly one encoded element-safe frame at
the head of the buffer. -/
theorem expectD_encode :
    ∀ (d : Nat) (f : RespFrame) (rest : Buf), arrayElemSafe f = true →
      (RespFrame.encode f ++ rest).length < d →
      RespFrame.expectD d (RespFrame.encode f ++ rest) = .ok (RespFrame.encode f).length := by
  intro d
  induction d with
  | zero =>
    intro f rest hsafe hlen
    omega
  | succ d ih =>
    intro f rest hsafe hlen
    match f with
    | .simpleString s => exact absurd hsafe (by simp [arrayElemSafe])
    | .integer i => exact absurd hsafe (by simp [arrayElemSafe])
    | .null => exact absurd hsafe (by simp [arrayElemSafe])
    | .bulkString none => exact absurd hsafe (by simp [arrayElemSafe])
    | .bulkString (some data) =>
      show RespFrame.expectD (d + 1)
          ((36 :: lenDigits data.length ++ CRLF ++ data ++ CRLF) ++ rest) =
        .ok (36 :: lenDigits data.length ++ CRLF ++ data ++ CRLF).length
      rw [show (36 :: lenDigits data.length ++ CRLF ++ data ++ CRLF) ++ rest =
        36 :: ((lenDigits data.length ++ CRLF ++ data ++ CRLF) ++ rest) from rfl]
      rw [RespFrame.expectD]
      simp only [List.head?_cons]
      rw [if_neg (by omega), if_pos trivial]
      have hb := BulkString.expect_length_encode data rest
      rw [show (36 :: lenDigits data.length ++ CRLF ++ data ++ CRLF) ++ rest =
        36 :: ((lenDigits data.length ++ CRLF ++ data ++ CRLF) ++ rest) from rfl] at hb
      exact hb
    | .array none =>
      show RespFrame.expectD (d + 1) (nullArrayBytes ++ rest) = .ok nullArrayBytes.length
      rw [nullArrayBytes_eq]
      rw [show ([42, 45, 49, 13, 10] : Buf) ++ rest = 42 :: ([45, 49, 13, 10] ++ rest) from rfl]
      rw [RespFrame.expectD]
      simp only [List.head?_cons]
      rw [if_neg (by omega), if_neg (by omega), if_pos trivial]
      have : nullArrayBytes.isPrefixOf (42 :: ([45, 49, 13, 10] ++ rest)) = true := by
        rw [nullArrayBytes_eq]
        simp [List.isPrefixOf]
      rw [RespArray.expect_lengthF_null this]
      rfl
    | .array (some fs) =>
      have hsafe' : allElemSafe fs = true := by
        have : arrayElemSafe (.array (some fs)) = allElemSafe fs := by
          rw [arrayElemSafe]
        rw [← this]
        exact hsafe
      have hinner : ∀ (gs : List RespFrame) (r : Buf), allElemSafe gs = true →
          (encodeList gs ++ r).length < d →
          probeElemsF (RespFrame.expectD d) gs.length (encodeList gs ++ r) =
            .ok (encodeList gs).length := by
        intro gs
        induction gs with
        | nil =>
          intro r _ _
          rfl
        | cons g gs' ihg =>
          intro r hsg hlg
          rw [allElemSafe] at hsg
          rw [Bool.and_eq_true] at hsg
          have hshape : encodeList (g :: gs') ++ r =
              RespFrame.encode g ++ (encodeList gs' ++ r) := by
            rw [encodeList]
            simp [List.append_assoc]
          have hel := ih g (encodeList gs' ++ r) hsg.1 (by
            rw [← hshape]
            exact hlg)
          have hrest := ihg r hsg.2 (by
            have h1 : (encodeList gs' ++ r).length ≤ (encodeList (g :: gs') ++ r).length := by
              rw [hshape]
              simp
            omega)
          have hstep : probeElemsF (RespFrame.expectD d) (gs'.length + 1)
              (encodeList (g :: gs') ++ r) =
              .ok ((RespFrame.encode g).length + (encodeList gs').length) := by
            rw [hshape]
            refine probeElemsF_succ_eq hel ?_
            rw [List.drop_left]
            exact hrest
          rw [show (g :: gs').length = gs'.length + 1 from rfl, hstep]
          rw [show encodeList (g :: gs') = RespFrame.encode g ++ encodeList gs' from rfl]
          rw [List.length_append]
      show RespFrame.expectD (d + 1)
          ((42 :: lenDigits fs.length ++ CRLF ++ encodeList fs) ++ rest) =
        .ok (42 :: lenDigits fs.length ++ CRLF ++ encodeList fs).length
      rw [show (42 :: lenDigits fs.length ++ CRLF ++ encodeList fs) ++ rest =
        42 :: ((lenDigits fs.length ++ CRLF ++ encodeList fs) ++ rest) from rfl]
      rw [RespFrame.expectD]
      simp only [List.head?_cons]
      rw [if_neg (by omega), if_neg (by omega), if_pos trivial]
      have hnull : nullArrayBytes.isPrefixOf
          (42 :: ((lenDigits fs.length ++ CRLF ++ encodeList fs) ++ rest)) = false := by
        have := null_array_encode_false fs.length ((CRLF ++ encodeList fs) ++ rest)
        rw [show 42 :: lenDigits fs.length ++ ((CRLF ++ encodeList fs) ++ rest) =
          42 :: ((lenDigits fs.length ++ CRLF ++ encodeList fs) ++ rest) by simp] at this
        exact this
      have hp : parse_length
          (42 :: ((lenDigits fs.length ++ CRLF ++ encodeList fs) ++ rest)) 42 =
          .ok ((lenDigits fs.length).length + 1, fs.length) := by
        rw [show 42 :: ((lenDigits fs.length ++ CRLF ++ encodeList fs) ++ rest) =
          42 :: lenDigits fs.length ++ 13 :: 10 :: (encodeList fs ++ rest) by simp [CRLF]]
        exact parse_length_encode (by omega) (encodeList fs ++ rest)
      have hdropq : (42 :: ((lenDigits fs.length ++ CRLF ++ encodeList fs) ++ rest)).drop
          ((lenDigits fs.length).length + 1 + CRLF_LEN) = encodeList fs ++ rest := by
        rw [show 42 :: ((lenDigits fs.length ++ CRLF ++ encodeList fs) ++ rest) =
          (42 :: lenDigits fs.length ++ [13, 10]) ++ (encodeList fs ++ rest) by simp [CRLF]]
        rw [show (lenDigits fs.length).length + 1 + CRLF_LEN =
          (42 :: lenDigits fs.length ++ [13, 10]).length by simp [CRLF_LEN]]
        exact List.drop_left _ _
      have hpr : probeElemsF (RespFrame.expectD d) fs.length
          ((42 :: ((lenDigits fs.length ++ CRLF ++ encodeList fs) ++ rest)).drop
            ((lenDigits fs.length).length + 1 + CRLF_LEN)) = .ok (encodeList fs).length := by
        rw [hdropq]
        refine hinner fs rest hsafe' ?_
        simp only [List.length_append, List.length_cons, CRLF] at hlen ⊢
        have : (RespFrame.encode (.array (some fs))).length =
            (42 :: lenDigits fs.length ++ CRLF ++ encodeList fs).length := rfl
        rw [this] at hlen
        simp only [List.length_cons, List.length_append, CRLF, List.length_nil] at hlen
        omega
      rw [RespArray.expect_lengthF_main hnull hp hpr]
      simp only [List.length_cons, List.length_append, CRLF, CRLF_LEN]
      simp

/-- Probing a sequence of encoded element-safe frames measures their total
encoded length. -/
theorem probeElems_encodeList (d : Nat) :
    ∀ (gs : List RespFrame) (r : Buf), allElemSafe gs = true →
      (encodeList gs ++ r).length < d →
      probeElemsF (RespFrame.expectD d) gs.length (encodeList gs ++ r) =
        .ok (encodeList gs).length := by
  intro gs
  induction gs with
  | nil =>
    intro r _ _
    rfl
  | cons g gs' ihg =>
    intro r hsg hlg
    rw [allElemSafe] at hsg
    rw [Bool.and_eq_true] at hsg
    have hshape : encodeList (g :: gs') ++ r =
        RespFrame.encode g ++ (encodeList gs' ++ r) := by
      rw [encodeList]
      simp [List.append_assoc]
    have hel := expectD_encode d g (encodeList gs' ++ r) hsg.1 (by
      rw [← hshape]
      exact hlg)
    have hrest := ihg r hsg.2 (by
      have h1 : (encodeList gs' ++ r).length ≤ (encodeList (g :: gs') ++ r).length := by
        rw [hshape]
        simp
      omega)
    have hstep : probeElemsF (RespFrame.expectD d) (gs'.length + 1)
        (encodeList (g :: gs') ++ r) =
        .ok ((RespFrame.encode g).length + (encodeList gs').length) := by
      rw [hshape]
      refine probeElemsF_succ_eq hel ?_
      rw [List.drop_left]
      exact hrest
    rw [show (g :: gs').length = gs'.length + 1 from rfl, hstep]
    rw [show encodeList (g :: gs') = RespFrame.encode g ++ encodeList gs' from rfl]
    rw [List.length_append]

/-- The fuelled decoder decodes exactly one encoded element-safe frame at
the head of the buffer, returning the original frame. -/
theorem decodeD_encode :
    ∀ (d : Nat) (f : RespFrame) (rest : Buf), arrayElemSafe f = true →
      (RespFrame.encode f ++ rest).length < d →
      RespFrame.decodeD d (RespFrame.encode f ++ rest) =
        (.ok f, (RespFrame.encode f).length) := by
  intro d
  induction d with
  | zero =>
    intro f rest hsafe hlen
    omega
  | succ d ih =>
    intro f rest hsafe hlen
    match f with
    | .simpleString s => exact absurd hsafe (by simp [arrayElemSafe])
    | .integer i => exact absurd hsafe (by simp [arrayElemSafe])
    | .null => exact absurd hsafe (by simp [arrayElemSafe])
    | .bulkString none => exact absurd hsafe (by simp [arrayElemSafe])
    | .bulkString (some data) =>
      show RespFrame.decodeD (d + 1)
          ((36 :: lenDigits data.length ++ CRLF ++ data ++ CRLF) ++ rest) =
        (.ok (.bulkString (some data)), (36 :: lenDigits data.length ++ CRLF ++ data ++ CRLF).length)
      rw [show (36 :: lenDigits data.length ++ CRLF ++ data ++ CRLF) ++ rest =
        36 :: ((lenDigits data.length ++ CRLF ++ data ++ CRLF) ++ rest) from rfl]
      rw [RespFrame.decodeD]
      simp only [List.head?_cons]
      rw [if_neg (by omega), if_neg (by omega), if_pos trivial]
      have hb := BulkString.decode_encode data rest
      rw [show (36 :: lenDigits data.length ++ CRLF ++ data ++ CRLF) ++ rest =
        36 :: ((lenDigits data.length ++ CRLF ++ data ++ CRLF) ++ rest) from rfl] at hb
      rw [hb]
    | .array none =>
      show RespFrame.decodeD (d + 1) (nullArrayBytes ++ rest) =
        (.ok (.array none), nullArrayBytes.length)
      rw [nullArrayBytes_eq]
      rw [show ([42, 45, 49, 13, 10] : Buf) ++ rest = 42 :: ([45, 49, 13, 10] ++ rest) from rfl]
      rw [RespFrame.decodeD]
      simp only [List.head?_cons]
      rw [if_neg (by omega), if_neg (by omega), if_neg (by omega), if_pos trivial]
      have hpre : nullArrayBytes.isPrefixOf (42 :: ([45, 49, 13, 10] ++ rest)) = true := by
        rw [nullArrayBytes_eq]
        simp [List.isPrefixOf]
      rw [RespArray.decodeF_null hpre (by simp)]
      rfl
    | .array (some fs) =>
      have hsafe' : allElemSafe fs = true := by
        have harr : arrayElemSafe (.array (some fs)) = allElemSafe fs := by
          rw [arrayElemSafe]
        rw [← harr]
        exact hsafe
      have hlen' : (encodeList fs ++ rest).length + (lenDigits fs.length).length + 3 =
          (RespFrame.encode (.array (some fs)) ++ rest).length := by
        show _ = ((42 :: lenDigits fs.length ++ CRLF ++ encodeList fs) ++ rest).length
        simp only [List.length_cons, List.length_append, CRLF, List.length_nil]
        simp
        omega
      have hinnerD : ∀ (gs : List RespFrame) (r : Buf), allElemSafe gs = true →
          (encodeList gs ++ r).length < d →
          decodeElemsF (RespFrame.decodeD d) gs.length (encodeList gs ++ r) =
            (.ok gs, (encodeList gs).length) := by
        intro gs
        induction gs with
        | nil =>
          intro r _ _
          rfl
        | cons g gs' ihg =>
          intro r hsg hlg
          rw [allElemSafe] at hsg
          rw [Bool.and_eq_true] at hsg
          have hshape : encodeList (g :: gs') ++ r =
              RespFrame.encode g ++ (encodeList gs' ++ r) := by
            rw [encodeList]
            simp [List.append_assoc]
          have hel := ih g (encodeList gs' ++ r) hsg.1 (by
            rw [← hshape]
            exact hlg)
          have hrest := ihg r hsg.2 (by
            have h1 : (encodeList gs' ++ r).length ≤ (encodeList (g :: gs') ++ r).length := by
              rw [hshape]
              simp
            omega)
          have hstep : decodeElemsF (RespFrame.decodeD d) (gs'.length + 1)
              (encodeList (g :: gs') ++ r) =
              (.ok (g :: gs'), (RespFrame.encode g).length + (encodeList gs').length) := by
            rw [hshape]
            refine decodeElemsF_succ_eq hel ?_
            rw [List.drop_left]
            exact hrest
          rw [show (g :: gs').length = gs'.length + 1 from rfl, hstep]
          rw [show encodeList (g :: gs') = RespFrame.encode g ++ encodeList gs' from rfl]
          rw [List.length_append]
      show RespFrame.decodeD (d + 1)
          ((42 :: lenDigits fs.length ++ CRLF ++ encodeList fs) ++ rest) =
        (.ok (.array (some fs)), (42 :: lenDigits fs.length ++ CRLF ++ encodeList fs).length)
      rw [show (42 :: lenDigits fs.length ++ CRLF ++ encodeList fs) ++ rest =
        42 :: ((lenDigits fs.length ++ CRLF ++ encodeList fs) ++ rest) from rfl]
      rw [RespFrame.decodeD]
      simp only [List.head?_cons]
      rw [if_neg (by omega), if_neg (by omega), if_neg (by omega), if_pos trivial]
      have hnull : nullArrayBytes.isPrefixOf
          (42 :: ((lenDigits fs.length ++ CRLF ++ encodeList fs) ++ rest)) = false := by
        have := null_array_encode_false fs.length ((CRLF ++ encodeList fs) ++ rest)
        rw [show 42 :: lenDigits fs.length ++ ((CRLF ++ encodeList fs) ++ rest) =
          42 :: ((lenDigits fs.length ++ CRLF ++ encodeList fs) ++ rest) by simp] at this
        exact this
      have hp : parse_length
          (42 :: ((lenDigits fs.length ++ CRLF ++ encodeList fs) ++ rest)) 42 =
          .ok ((lenDigits fs.length).length + 1, fs.length) := by
        rw [show 42 :: ((lenDigits fs.length ++ CRLF ++ encodeList fs) ++ rest) =
          42 :: lenDigits fs.length ++ 13 :: 10 :: (encodeList fs ++ rest) by simp [CRLF]]
        exact parse_length_encode (by omega) (encodeList fs ++ rest)
      have hdropq : (42 :: ((lenDigits fs.length ++ CRLF ++ encodeList fs) ++ rest)).drop
          ((lenDigits fs.length).length + 1 + CRLF_LEN) = encodeList fs ++ rest := by
        rw [show 42 :: ((lenDigits fs.length ++ CRLF ++ encodeList fs) ++ rest) =
          (42 :: lenDigits fs.length ++ [13, 10]) ++ (encodeList fs ++ rest) by simp [CRLF]]
        rw [show (lenDigits fs.length).length + 1 + CRLF_LEN =
          (42 :: lenDigits fs.length ++ [13, 10]).length by simp [CRLF_LEN]]
        exact List.drop_left _ _
      have hlfs : (encodeList fs ++ rest).length < d := by
        have h2 : (RespFrame.encode (.array (some fs)) ++ rest).length < d + 1 := hlen
        omega
      have hpr : probeElemsF (RespFrame.expectD d) fs.length
          ((42 :: ((lenDigits fs.length ++ CRLF ++ encodeList fs) ++ rest)).drop
            ((lenDigits fs.length).length + 1 + CRLF_LEN)) = .ok (encodeList fs).length := by
        rw [hdropq]
        exact probeElems_encodeList d fs rest hsafe' hlfs
      have hes : decodeElemsF (RespFrame.decodeD d) fs.length
          ((42 :: ((lenDigits fs.length ++ CRLF ++ encodeList fs) ++ rest)).drop
            ((lenDigits fs.length).length + 1 + CRLF_LEN)) =
          (.ok fs, (encodeList fs).length) := by
        rw [hdropq]
        exact hinnerD fs rest hsafe' hlfs
      have hmain := @RespArray.decodeF_main (RespFrame.decodeD d) _ _ _ _ _ hnull hp
        (by
          rw [show (42 : Nat) :: ((lenDigits fs.length ++ CRLF ++ encodeList fs) ++ rest) =
            (42 :: lenDigits fs.length ++ [13, 10]) ++ (encodeList fs ++ rest) by simp [CRLF]] at hpr ⊢
          rw [show ((42 : Nat) :: lenDigits fs.length ++ [13, 10]) ++ (encodeList fs ++ rest) =
            42 :: ((lenDigits fs.length ++ CRLF ++ encodeList fs) ++ rest) by simp [CRLF]] at hpr ⊢
          exact hpr)
        (by
          simp only [List.length_cons, List.length_append, CRLF, CRLF_LEN, List.length_nil]
          simp
          omega)
      rw [hmain, hes]
      simp only [List.length_cons, List.length_append, CRLF, CRLF_LEN]
      simp

/-- C2 (amended): for every Frame value built from the BulkString and Array
constructors in which no present Array contains a null BulkString element
at any depth — null and non-null BulkStrings at top level, null and
non-null Arrays, and arrays nesting such frames — decoding a buffer that
contains exactly `encode v` succeeds, yields a frame structurally equal to
`v`, and consumes the whole buffer, leaving it empty.  (An Array containing
a null BulkString element is excluded: its encoding fails to decode, as the
counterexample shows.) -/
theorem encode_decode_round_trip :
    ∀ v : RespFrame, topSafe v = true →
      RespFrame.decode (RespFrame.encode v) = (.ok v, (RespFrame.encode v).length) ∧
        (RespFrame.encode v).drop (RespFrame.decode (RespFrame.encode v)).2 = [] := by
  intro v hsafe
  have key : RespFrame.decode (RespFrame.encode v) = (.ok v, (RespFrame.encode v).length) := by
    by_cases hnb : v = .bulkString none
    · subst hnb
      rfl
    · have hsafe' : arrayElemSafe v = true := by
        match v with
        | .bulkString none => exact absurd rfl hnb
        | .bulkString (some d) => rfl
        | .array es => exact hsafe
        | .simpleString s => exact absurd hsafe (by simp [topSafe, arrayElemSafe])
        | .integer i => exact absurd hsafe (by simp [topSafe, arrayElemSafe])
        | .null => exact absurd hsafe (by simp [topSafe, arrayElemSafe])
      have hd := decodeD_encode ((RespFrame.encode v ++ []).length + 1) v [] hsafe' (by omega)
      rw [List.append_nil] at hd
      exact hd
  refine ⟨key, ?_⟩
  rw [key]
  simp

/-- Witness for C2 at a concrete nested frame: an array holding a non-null
bulk string and a null array round-trips, consuming its whole encoding. -/
theorem encode_decode_round_trip_witness :
    RespFrame.decode
        (RespFrame.encode (.array (some [.bulkString (some (strBytes "a")), .array none]))) =
      (.ok (.array (some [.bulkString (some (strBytes "a")), .array none])),
        (RespFrame.encode
          (.array (some [.bulkString (some (strBytes "a")), .array none]))).length) ∧
    (RespFrame.encode (.array (some [.bulkString (some (strBytes "a")), .array none]))).drop
        (RespFrame.decode
          (RespFrame.encode (.array (some [.bulkString (some (strBytes "a")), .array none])))).2 =
      [] :=
  encode_decode_round_trip (.array (some [.bulkString (some (strBytes "a")), .array none])) rfl

/-! # Lemmas about the store -/

theorem lookup_assocInsert_self {α : Type} (k : String) (v : α) (l : List (String × α)) :
    (assocInsert k v l).lookup k = some v := by
  induction l with
  | nil => simp [assocInsert, List.lookup]
  | cons p rest ih =>
    obtain ⟨k', v'⟩ := p
    rw [assocInsert]
    by_cases h : k' == k
    · rw [if_pos h]
      simp [List.lookup]
    · rw [if_neg h]
      rw [List.lookup]
      have : (k == k') = false := by
        simp only [beq_eq_false_iff_ne, ne_eq]
        intro he
        subst he
        simp at h
      rw [this]
      exact ih

theorem flattenPairs_length (l : List (String × RespFrame)) :
    (flattenPairs l).length = 2 * l.length := by
  induction l with
  | nil => rfl
  | cons p rest ih =>
    obtain ⟨k, v⟩ := p
    rw [flattenPairs]
    simp only [List.length_cons, ih]
    omega

/-- C3 (code bug): the state effect of `HSet` is correct — after
`backend.hset(key, field, value)` a `hget(key, field)` returns the stored
value — but the return value of `Backend::hset` is the unit value for every
store, key, field and value alike: the function carries no created-field
count that `HSet::execute` could wrap into `RespFrame::Integer`, so the
claimed `Integer 1` / `Integer 0` replies do not exist in the code. -/
theorem hset_stores_but_returns_unit :
    (∀ (b : Backend) (k f : String) (v : RespFrame), ((b.hset k f v).1).hget k f = some v)
    ∧ (∀ (b₁ b₂ : Backend) (k₁ f₁ k₂ f₂ : String) (v₁ v₂ : RespFrame),
        (b₁.hset k₁ f₁ v₁).2 = (b₂.hset k₂ f₂ v₂).2) := by
  constructor
  · intro b k f v
    show Backend.hget
        ⟨{ b.inner with
            hmap := assocInsert k (assocInsert f v ((b.inner.hmap.lookup k).getD []))
              b.inner.hmap }⟩ k f = some v
    unfold Backend.hget
    rw [lookup_assocInsert_self]
    exact lookup_assocInsert_self f v _
  · intro b₁ b₂ k₁ f₁ k₂ f₂ v₁ v₂
    rfl

/-- C6: for every store, key and requested field list, `HMGet` replies with
a present Array holding exactly one entry per requested field in request
order — the stored frame where present, a null BulkString placeholder where
the field or the whole key is absent — so the reply length always equals
the requested count, and the store is untouched. -/
theorem hmget_pads_to_request_length :
    ∀ (b : Backend) (key : String) (fields : List String),
      HMGet.execute ⟨key, fields⟩ b =
        (.array (some (fields.map (fun f => (b.hget key f).getD (.bulkString none)))), b)
      ∧ (fields.map (fun f => (b.hget key f).getD (.bulkString none))).length =
          fields.length := by
  intro b key fields
  refine ⟨?_, by rw [List.length_map]⟩
  have hmap : ∀ fl : List String,
      (b.hmget key fl).map (fun o =>
        match o with
        | some v => v
        | none => RespFrame.bulkString none)
      = fl.map (fun f => (b.hget key f).getD (.bulkString none)) := by
    intro fl
    induction fl with
    | nil => rfl
    | cons f rest ih =>
      unfold Backend.hmget at ih ⊢
      simp only [List.map_cons, List.cons.injEq]
      refine ⟨?_, ih⟩
      unfold Backend.hget
      cases b.inner.hmap.lookup key with
      | none => rfl
      | some h =>
        dsimp only
        show _ = (List.lookup f h).getD (RespFrame.bulkString none)
        cases h.lookup f <;> rfl
  unfold HMGet.execute
  rw [hmap]

/-- C7: `HGetAll` replies with a null Array when the key is absent from the
hash namespace (never an empty present Array); otherwise it replies with a
present flat Array alternating field name and value, one pair per stored
entry, and when the deterministic-order flag is set the pairs are sorted
ascending by field name. -/
theorem hgetall_null_vs_sorted_pairs :
    ∀ (b : Backend) (key : String),
      (b.inner.hmap.lookup key = none →
        ∀ s, HGetAll.execute ⟨key, s⟩ b = (.array none, b))
      ∧ (∀ m, b.inner.hmap.lookup key = some m →
          (∀ s, HGetAll.execute ⟨key, s⟩ b =
            (.array (some (flattenPairs (if s then List.insertionSort keyLe m else m))), b))
          ∧ (List.insertionSort keyLe m).Perm m
          ∧ ((List.insertionSort keyLe m).map Prod.fst).Sorted (· ≤ ·)
          ∧ (flattenPairs (List.insertionSort keyLe m)).length = 2 * m.length) := by
  intro b key
  constructor
  · intro hnone s
    unfold HGetAll.execute
    rw [hnone]
  · intro m hsome
    refine ⟨fun s => ?_, List.perm_insertionSort keyLe m, ?_, ?_⟩
    · unfold HGetAll.execute
      rw [hsome]
    · have hsorted : (List.insertionSort keyLe m).Sorted keyLe :=
        List.sorted_insertionSort keyLe m
      exact List.Pairwise.map Prod.fst (fun a c h => h) hsorted
    · rw [flattenPairs_length]
      congr 1
      exact (List.perm_insertionSort keyLe m).length_eq

/-- C5: on a store where key `s` is absent from the set namespace,
`Sadd("s", ["a","b","a"])` returns Integer 2 — the duplicate within the
call does not count — after which `Sismember("s","a")` returns Integer 1
and `Sismember("s","z")` returns Integer 0; and `Sismember` on any wholly
absent key returns Integer 0. -/
theorem sadd_dedup_and_sismember :
    ∀ b : Backend, b.inner.set.lookup "s" = none →
      (b.sadd "s" ["a", "b", "a"]).2 = 2
      ∧ ((b.sadd "s" ["a", "b", "a"]).1).sismember "s" "a" = 1
      ∧ ((b.sadd "s" ["a", "b", "a"]).1).sismember "s" "z" = 0
      ∧ (∀ (b' : Backend) (k m : String), b'.inner.set.lookup k = none →
          b'.sismember k m = 0) := by
  intro b hnone
  have hfold : (b.sadd "s" ["a", "b", "a"]) =
      (⟨{ b.inner with set := assocInsert "s" ["a", "b"] b.inner.set }⟩, 2) := by
    unfold Backend.sadd
    rw [hnone]
    rfl
  refine ⟨by rw [hfold], ?_, ?_, ?_⟩
  · rw [hfold]
    unfold Backend.sismember
    simp only
    rw [lookup_assocInsert_self]
    rfl
  · rw [hfold]
    unfold Backend.sismember
    simp only
    rw [lookup_assocInsert_self]
    rfl
  · intro b' k m hk
    unfold Backend.sismember
    rw [hk]
    rfl

/-- Witness for C5 at the empty store. -/
theorem sadd_dedup_and_sismember_witness :
    (Backend.new.sadd "s" ["a", "b", "a"]).2 = 2
    ∧ ((Backend.new.sadd "s" ["a", "b", "a"]).1).sismember "s" "a" = 1
    ∧ ((Backend.new.sadd "s" ["a", "b", "a"]).1).sismember "s" "z" = 0
    ∧ (∀ (b' : Backend) (k m : String), b'.inner.set.lookup k = none →
        b'.sismember k m = 0) :=
  sadd_dedup_and_sismember Backend.new rfl

/-- Witness for C7 at a concrete two-field hash stored under `"h"`. -/
theorem hgetall_null_vs_sorted_pairs_witness :
    HGetAll.execute ⟨"x", true⟩
        ⟨⟨[], [("h", [("b", .null), ("a", .integer 1)])], []⟩⟩ =
      (.array none, ⟨⟨[], [("h", [("b", .null), ("a", .integer 1)])], []⟩⟩)
    ∧ HGetAll.execute ⟨"h", true⟩
        ⟨⟨[], [("h", [("b", .null), ("a", .integer 1)])], []⟩⟩ =
      (.array (some (flattenPairs (if true then
          List.insertionSort keyLe [("b", RespFrame.null), ("a", RespFrame.integer 1)]
        else [("b", RespFrame.null), ("a", RespFrame.integer 1)]))),
       ⟨⟨[], [("h", [("b", .null), ("a", .integer 1)])], []⟩⟩) :=
  ⟨(hgetall_null_vs_sorted_pairs
      ⟨⟨[], [("h", [("b", .null), ("a", .integer 1)])], []⟩⟩ "x").1 rfl true,
   ((hgetall_null_vs_sorted_pairs
      ⟨⟨[], [("h", [("b", .null), ("a", .integer 1)])], []⟩⟩ "h").2
      [("b", .null), ("a", .integer 1)] rfl).1 true⟩

/-- C4 (code bug): the dispatch in `TryFrom<RespArray> for Command` matches
the command name's raw bytes against the lowercase literals, so the
uppercase spelling `HGET` never reaches the typed variant: it parses to
`Unrecognized`, while the lowercase spelling parses to the typed `HGet`
command — even though `validate_command` itself compares the name through
`to_ascii_lowercase` and accepts the uppercase spelling, so the intended
case-insensitive comparison is dead code. -/
theorem dispatch_is_case_sensitive :
    Command.tryFrom (some [.bulkString (some (strBytes "HGET")),
      .bulkString (some (strBytes "k")), .bulkString (some (strBytes "f"))]) =
      .ok .unrecognized
    ∧ Command.tryFrom (some [.bulkString (some (strBytes "hget")),
      .bulkString (some (strBytes "k")), .bulkString (some (strBytes "f"))]) =
      .ok (.hget ⟨"k", "f"⟩)
    ∧ validate_command (some [.bulkString (some (strBytes "HGET")),
      .bulkString (some (strBytes "k")), .bulkString (some (strBytes "f"))])
      [strBytes "hget"] (some 2) = .ok () :=
  ⟨rfl, rfl, rfl⟩

/-- C9: every request array whose first element is a BulkString matching no
known command name parses to the `Unrecognized` command rather than
failing, and executing `Unrecognized` returns the fixed
`SimpleString "OK"` acknowledgement, leaving any store unchanged. -/
theorem unknown_name_parses_to_unrecognized_ok :
    ∀ (payload : Option Buf) (rest : List RespFrame) (b : Backend),
      bulkAsRef payload ∉ knownCmdNames →
      Command.tryFrom (some (.bulkString payload :: rest)) = .ok .unrecognized
      ∧ Unrecognized.execute b = (.simpleString (strBytes "OK"), b) := by
  intro payload rest b hname
  refine ⟨?_, rfl⟩
  simp only [knownCmdNames, List.mem_cons, List.not_mem_nil, or_false, not_or] at hname
  obtain ⟨h1, h2, h3, h4, h5, h6, h7, h8, h9⟩ := hname
  simp only [Command.tryFrom, List.head?_cons]
  rw [if_neg h1, if_neg h2, if_neg h3, if_neg h4, if_neg h5, if_neg h6, if_neg h7,
    if_neg h8, if_neg h9]

/-- Witness for C9 at the name `ping` on the empty store. -/
theorem unknown_name_parses_to_unrecognized_ok_witness :
    bulkAsRef (some (strBytes "ping")) ∉ knownCmdNames
    ∧ (Command.tryFrom (some [.bulkString (some (strBytes "ping"))]) = .ok .unrecognized
       ∧ Unrecognized.execute Backend.new = (.simpleString (strBytes "OK"), Backend.new)) :=
  ⟨by decide,
   unknown_name_parses_to_unrecognized_ok (some (strBytes "ping")) [] Backend.new
     (by decide)⟩

/-- C10: command parsing is not total over well-formed request arrays whose
argument positions hold null BulkStrings — the `expect` calls panic instead
of returning a `CommandError`: the present array
`[BulkString "echo", null BulkString]` panics with "Invalid message",
`hget` with a null key panics with "Invalid key", and `sadd` with a null
member panics with "Invalid member". -/
theorem null_argument_payload_panics :
    Command.tryFrom (some [.bulkString (some (strBytes "echo")), .bulkString none]) =
      .panicked "Invalid message"
    ∧ Command.tryFrom (some [.bulkString (some (strBytes "hget")), .bulkString none,
        .bulkString (some (strBytes "f"))]) = .panicked "Invalid key"
    ∧ Command.tryFrom (some [.bulkString (some (strBytes "sadd")),
        .bulkString (some (strBytes "k")), .bulkString none]) =
      .panicked "Invalid member" :=
  ⟨rfl, rfl, rfl⟩

end SimpleRedis
